import Mathlib

set_option maxRecDepth 2048

/-!
Verification of the growing SPMC queue from `spmc_queue.h` (the module
`MODULE_SPMC_QUEUE`).  The C code is shallowly embedded: the queue struct
becomes a Lean structure, the `uint64_t` counters become `Nat` values kept
below `2 ^ 64` by explicit reduction (`u64`), the `(int64_t)(a - b)`
wraparound-safe differences become `wrapDiff`, and the malloc'd block chain
becomes a heap `blocks : List (SPMC_Queue_Block α)` addressed by list index
(pointer identity = index identity; `malloc` always returns a fresh index).
`malloc` failure is modelled by an explicit `alloc_ok : Bool` argument.
Items are opaque `item_size`-byte slots in C; the embedding abstracts a slot
as a value of a type `α`, so `memcpy` of one slot becomes assignment and the
byte-offset arithmetic of `_spmc_queue_slot` reduces to the masked index.

All operations are executed sequentially (the single-producer /
single-consumer regime of the `_st` functions).  The one genuinely
concurrent observable treated by the claims - another consumer winning the
CAS inside `pop_weak` - is modelled by giving `pop_weak` the value the
shared tail holds at the instant of its CAS (`tail_at_cas`); the sequential
instantiation passes the unchanged tail, making the CAS always succeed.
-/

/-! ## 64-bit modular arithmetic -/

/-- Reduction of a `Nat` to its `uint64_t` value. -/
def u64 (n : Nat) : Nat := n % 2 ^ 64

/-- `uint64_t` subtraction `a - b` (two's complement wraparound). -/
def sub64 (a b : Nat) : Nat := (u64 a + (2 ^ 64 - u64 b)) % 2 ^ 64

/-- Reinterpretation of a `uint64_t` value as `int64_t` (two's complement). -/
def toInt64 (n : Nat) : Int :=
  if u64 n < 2 ^ 63 then (u64 n : Int) else (u64 n : Int) - 2 ^ 64

/-- The C idiom `(int64_t)(a - b)` on `uint64_t` operands. -/
def wrapDiff (a b : Nat) : Int := toInt64 (sub64 a b)

/-! ## Data model -/

/-- `SPMC_Queue_State` of `spmc_queue.h`. -/
inductive SPMC_Queue_State where
  | OK
  | EMPTY
  | FULL
  | FAILED_RACE
deriving DecidableEq

/-- `SPMC_Queue_Result`: state indicator plus the head/tail values observed
before the call (the `int _` padding field carries no information and is
dropped). -/
structure SPMC_Queue_Result where
  head : Nat
  tail : Nat
  state : SPMC_Queue_State
deriving DecidableEq

/-- `SPMC_Queue_Block`: `next` is the pointer (heap index) to the replaced
block, `mask` is capacity - 1 and `data` is the inline slot storage,
indexed by the masked slot index. -/
structure SPMC_Queue_Block (α : Type) where
  next : Option Nat
  mask : Nat
  data : Nat → α

instance (α : Type) [Inhabited α] : Inhabited (SPMC_Queue_Block α) :=
  ⟨⟨none, 0, fun _ => default⟩⟩

/-- The queue.  Field names follow the C struct: the `pop.` half then the
`push.` half.  `blocks` is the heap the block pointers index into. -/
structure SPMC_Queue (α : Type) where
  blocks : List (SPMC_Queue_Block α)
  pop_block : Option Nat
  pop_tail : Nat
  pop_estimate_head : Nat
  pop_item_size : Int
  push_block : Option Nat
  push_estimate_tail : Nat
  push_head : Nat
  push_item_size : Int
  push_max_capacity : Int

variable {α : Type} [Inhabited α]

/-- Dereference a block pointer (heap index).  Out-of-range reads return the
junk `default` block; they never occur on reachable states. -/
def getBlock (q : SPMC_Queue α) (p : Nat) : SPMC_Queue_Block α :=
  q.blocks.getD p default

/-- `spmc_queue_init`: `deinit` frees the chain and zeroes the struct, then
the item size and optional capacity ceiling are stored.  The result is the
zeroed queue with the two size fields and `max_capacity` set. -/
def spmc_queue_init (α : Type) (item_size max_capacity_or_negative_if_infinite : Int) :
    SPMC_Queue α :=
  { blocks := []
    pop_block := none
    pop_tail := 0
    pop_estimate_head := 0
    pop_item_size := item_size
    push_block := none
    push_estimate_tail := 0
    push_head := 0
    push_item_size := item_size
    push_max_capacity := max_capacity_or_negative_if_infinite }

/-- `_spmc_queue_slot`: the slot of index `i` lives at byte offset
`(i & mask) * item_size`; with slots abstracted to `α` this is the masked
index.  `i` is a `uint64_t` in C, hence the `u64`. -/
def _spmc_queue_slot (block : SPMC_Queue_Block α) (i : Nat) : Nat :=
  u64 i &&& block.mask

/-- Read the slot of index `i`. -/
def blockGet (b : SPMC_Queue_Block α) (i : Nat) : α :=
  b.data (_spmc_queue_slot b i)

/-- Overwrite the slot of index `i` (the `memcpy` into a slot). -/
def blockSet (b : SPMC_Queue_Block α) (i : Nat) (v : α) : SPMC_Queue_Block α :=
  { b with data := Function.update b.data (_spmc_queue_slot b i) v }

/-! ## Growth engine -/

/-- The capacity-doubling loop of `_spmc_queue_reserve`:
`new_cap = 64; while((isize)new_cap < to_size) new_cap *= 2;`.
`new_cap` is a `uint64_t`, compared as `isize`.  The loop is written with a
doubling budget of 64: within the regime `to_size ≤ 2 ^ 62` handled by the
queue (beyond it the C loop never terminates, as `new_cap` wraps through
`2 ^ 63` to `0`) the budget is never exhausted and the definition agrees
with the C loop exactly. -/
def _spmc_new_cap_loop (to_size : Int) : Nat → Nat → Nat
  | new_cap, 0 => new_cap
  | new_cap, fuel + 1 =>
    if toInt64 new_cap < to_size then _spmc_new_cap_loop to_size (u64 (new_cap * 2)) fuel
    else new_cap

/-- The capacity chosen by `_spmc_queue_reserve` when it allocates. -/
def _spmc_new_cap (to_size : Int) : Nat := _spmc_new_cap_loop to_size 64 64

/-- Number of iterations of the copy loop
`for(uint64_t i = tail; (int64_t)(i - head) < 0; i++)`: zero when the first
test fails, otherwise the wraparound distance from `tail` up to `head`. -/
def _spmc_copy_count (tail head : Nat) : Nat :=
  if wrapDiff tail head < 0 then sub64 head tail else 0

/-- The copy loop body of `_spmc_queue_reserve`: iteration `n` copies slot
index `tail + n` from the old block into the new one.  Later iterations are
applied on top of earlier ones, exactly as the C loop executes. -/
def _spmc_copy_loop (old_data : Nat → α) (old_mask new_mask tail : Nat)
    (new_data : Nat → α) : Nat → (Nat → α)
  | 0 => new_data
  | n + 1 =>
    Function.update (_spmc_copy_loop old_data old_mask new_mask tail new_data n)
      (u64 (tail + n) &&& new_mask) (old_data (u64 (tail + n) &&& old_mask))

/-- The `old_cap` local of `_spmc_queue_reserve`. -/
def _spmc_queue_old_cap (queue : SPMC_Queue α) : Int :=
  match queue.push_block with
  | some p => ((getBlock queue p).mask : Int) + 1
  | none => 0

/-- The `max_capacity` local of `_spmc_queue_reserve`:
`queue->push.max_capacity >= 0 ? queue->push.max_capacity : INT64_MAX`. -/
def _spmc_queue_max_cap (queue : SPMC_Queue α) : Int :=
  if 0 ≤ queue.push_max_capacity then queue.push_max_capacity else 2 ^ 63 - 1

/-- The freshly allocated block of `_spmc_queue_reserve`: linked to the old
block, capacity `_spmc_new_cap to_size`, and - when an old block exists -
the live range `[tail, head)` copied over (the fresh storage is the junk
value `default` elsewhere, standing for uninitialised memory). -/
def _spmc_queue_new_block (queue : SPMC_Queue α) (to_size : Int) : SPMC_Queue_Block α :=
  { next := queue.push_block
    mask := _spmc_new_cap to_size - 1
    data :=
      match queue.push_block with
      | some p =>
        _spmc_copy_loop (getBlock queue p).data (getBlock queue p).mask
          (_spmc_new_cap to_size - 1) queue.pop_tail (fun _ => default)
          (_spmc_copy_count queue.pop_tail queue.push_head)
      | none => fun _ => default }

/-- `_spmc_queue_reserve`.  Returns the updated queue and whether a new
block was installed (in C: whether the returned pointer differs from
`old_block`; `malloc` always returns a fresh pointer, so this is exactly
"the allocation branch ran").  `alloc_ok = false` models `malloc`
returning `NULL`. -/
def _spmc_queue_reserve (queue : SPMC_Queue α) (to_size : Int) (alloc_ok : Bool) :
    SPMC_Queue α × Bool :=
  if _spmc_queue_old_cap queue < to_size ∧ to_size ≤ _spmc_queue_max_cap queue then
    if alloc_ok then
      ({ queue with
            blocks := queue.blocks ++ [_spmc_queue_new_block queue to_size]
            push_block := some queue.blocks.length
            pop_block := some queue.blocks.length }, true)
    else (queue, false)
  else (queue, false)

/-- `spmc_queue_reserve`: the public wrapper discards the returned block. -/
def spmc_queue_reserve (queue : SPMC_Queue α) (to_size : Int) (alloc_ok : Bool) :
    SPMC_Queue α :=
  (_spmc_queue_reserve queue to_size alloc_ok).1

/-! ## Push -/

/-- The test `block == NULL || (int64_t)(head - tail) > (int64_t)block->mask`
of `spmc_queue_result_push_st`. -/
def _spmc_push_no_room (q : SPMC_Queue α) (block : Option Nat) (head tail : Nat) : Bool :=
  match block with
  | none => true
  | some p => decide (wrapDiff head tail > toInt64 (getBlock q p).mask)

/-- The tail end of `spmc_queue_result_push_st`: write the item into the
slot at `head` of `block` and publish `head + 1`.  The `none` case would be
a NULL dereference in C; it is unreachable (push only gets here with a
block installed) and modelled as skipping the store. -/
def _spmc_push_finish (q : SPMC_Queue α) (block : Option Nat) (head tail : Nat) (item : α) :
    SPMC_Queue_Result × SPMC_Queue α :=
  match block with
  | none => (⟨head, tail, SPMC_Queue_State.OK⟩, { q with push_head := u64 (head + 1) })
  | some p =>
    (⟨head, tail, SPMC_Queue_State.OK⟩,
      { q with
          blocks := q.blocks.set p (blockSet (getBlock q p) head item)
          push_head := u64 (head + 1) })

/-- `spmc_queue_result_push_st`. -/
def spmc_queue_result_push_st (q : SPMC_Queue α) (item : α) (alloc_ok : Bool) :
    SPMC_Queue_Result × SPMC_Queue α :=
  let block := q.push_block
  let head := q.push_head
  let tail := q.push_estimate_tail
  if _spmc_push_no_room q block head tail then
    let tail2 := q.pop_tail
    let q2 := { q with push_estimate_tail := tail2 }
    if _spmc_push_no_room q2 block head tail2 then
      let r := _spmc_queue_reserve q2 (toInt64 (u64 (sub64 head tail2 + 1))) alloc_ok
      if r.2 = false then (⟨head, tail2, SPMC_Queue_State.FULL⟩, r.1)
      else _spmc_push_finish r.1 r.1.push_block head tail2 item
    else _spmc_push_finish q2 block head tail2 item
  else _spmc_push_finish q block head tail item

/-- `spmc_queue_push_st`. -/
def spmc_queue_push_st (q : SPMC_Queue α) (item : α) (alloc_ok : Bool) :
    Bool × SPMC_Queue α :=
  let r := spmc_queue_result_push_st q item alloc_ok
  (decide (r.1.state = SPMC_Queue_State.OK), r.2)

/-! ## Pop -/

/-- The guarded copy `if(item) memcpy(item, slot, item_size)` shared by the
pop functions.  `item_ptr` is the nullness of the output pointer; the
result is the value written into the caller's buffer (`none` = buffer left
untouched).  A `none` block would be a NULL dereference in C (unreachable
on sane states); it is modelled as reading the junk value `default`. -/
def _spmc_pop_read (q : SPMC_Queue α) (tail : Nat) (item_ptr : Bool) : Option α :=
  if item_ptr then
    match q.pop_block with
    | some p => some (blockGet (getBlock q p) tail)
    | none => some default
  else none

/-- `spmc_queue_result_pop_st`.  Returns the result, the new queue, and the
value (if any) written to the caller's buffer. -/
def spmc_queue_result_pop_st (q : SPMC_Queue α) (item_ptr : Bool) :
    SPMC_Queue_Result × SPMC_Queue α × Option α :=
  let tail := q.pop_tail
  let head := q.pop_estimate_head
  if wrapDiff head tail ≤ 0 then
    let head2 := q.push_head
    let q2 := { q with pop_estimate_head := head2 }
    if wrapDiff head2 tail ≤ 0 then (⟨head2, tail, SPMC_Queue_State.EMPTY⟩, q2, none)
    else
      (⟨head2, tail, SPMC_Queue_State.OK⟩,
        { q2 with pop_tail := u64 (tail + 1) }, _spmc_pop_read q2 tail item_ptr)
  else
    (⟨head, tail, SPMC_Queue_State.OK⟩,
      { q with pop_tail := u64 (tail + 1) }, _spmc_pop_read q tail item_ptr)

/-- `spmc_queue_pop_st`. -/
def spmc_queue_pop_st (q : SPMC_Queue α) (item_ptr : Bool) :
    Bool × SPMC_Queue α × Option α :=
  let r := spmc_queue_result_pop_st q item_ptr
  (decide (r.1.state = SPMC_Queue_State.OK), r.2)

/-- Copy-then-CAS tail end of `spmc_queue_result_pop_weak`: the slot is
copied out first, then the CAS attempts to advance the shared tail from the
initially read `tail` to `tail + 1`.  `tail_at_cas` is the value the shared
tail holds at the instant the CAS executes (other consumers may have
advanced it since our read); the CAS succeeds iff it still equals `tail`.
On failure the shared tail keeps the other consumers' value. -/
def _spmc_pop_weak_cas (q : SPMC_Queue α) (head tail : Nat) (item_ptr : Bool)
    (tail_at_cas : Nat) : SPMC_Queue_Result × SPMC_Queue α × Option α :=
  let out := _spmc_pop_read q tail item_ptr
  if tail_at_cas = tail then
    (⟨head, tail, SPMC_Queue_State.OK⟩, { q with pop_tail := u64 (tail + 1) }, out)
  else
    (⟨head, tail, SPMC_Queue_State.FAILED_RACE⟩, { q with pop_tail := tail_at_cas }, out)

/-- `spmc_queue_result_pop_weak`, parameterised by the shared-tail value at
CAS time. -/
def spmc_queue_result_pop_weak_at (q : SPMC_Queue α) (item_ptr : Bool) (tail_at_cas : Nat) :
    SPMC_Queue_Result × SPMC_Queue α × Option α :=
  let tail := q.pop_tail
  let head := q.pop_estimate_head
  if wrapDiff tail head ≥ 0 then
    let head2 := q.push_head
    let q2 := { q with pop_estimate_head := head2 }
    if wrapDiff tail head2 ≥ 0 then (⟨head2, tail, SPMC_Queue_State.EMPTY⟩, q2, none)
    else _spmc_pop_weak_cas q2 head2 tail item_ptr tail_at_cas
  else _spmc_pop_weak_cas q head tail item_ptr tail_at_cas

/-- `spmc_queue_result_pop_weak` with no interference between the initial
tail read and the CAS: the shared tail at CAS time is the value read. -/
def spmc_queue_result_pop_weak (q : SPMC_Queue α) (item_ptr : Bool) :
    SPMC_Queue_Result × SPMC_Queue α × Option α :=
  spmc_queue_result_pop_weak_at q item_ptr q.pop_tail

/-- `spmc_queue_result_pop` loops `pop_weak` until the state is not
`FAILED_RACE`.  Sequentially the CAS of the first iteration always succeeds
(`pop_weak_seq_no_race` below), so the loop runs exactly once. -/
def spmc_queue_result_pop (q : SPMC_Queue α) (item_ptr : Bool) :
    SPMC_Queue_Result × SPMC_Queue α × Option α :=
  spmc_queue_result_pop_weak q item_ptr

/-- `spmc_queue_pop`. -/
def spmc_queue_pop (q : SPMC_Queue α) (item_ptr : Bool) :
    Bool × SPMC_Queue α × Option α :=
  let r := spmc_queue_result_pop q item_ptr
  (decide (r.1.state = SPMC_Queue_State.OK), r.2)

/-! ## Count and capacity -/

/-- `spmc_queue_capacity`. -/
def spmc_queue_capacity (q : SPMC_Queue α) : Int :=
  match q.pop_block with
  | some p => ((getBlock q p).mask : Int) + 1
  | none => 0

/-- `spmc_queue_count`.  Sequentially the `tail == t0` snapshot loop exits
on its first iteration (nothing runs between the loads).  Note the C quirk
kept here: `diff` is a `uint64_t` holding the `(isize)(head - tail)` value,
so `diff >= 0` always holds and the returned `isize` is the two's
complement reinterpretation of `diff`. -/
def spmc_queue_count (q : SPMC_Queue α) : Int :=
  let diff : Nat := sub64 q.push_head q.pop_tail
  if (0 : Nat) ≤ diff then toInt64 diff else 0

/-! ## Iterated operations (test harness used by the claims) -/

/-- Push the items of `l` one at a time with `push_st` (allocation always
succeeding). -/
def spmc_push_list (q : SPMC_Queue α) (l : List α) : SPMC_Queue α :=
  l.foldl (fun acc it => (spmc_queue_result_push_st acc it true).2) q

/-- Whether every push of `spmc_push_list` reports OK. -/
def spmc_push_list_ok (q : SPMC_Queue α) : List α → Bool
  | [] => true
  | it :: rest =>
    let r := spmc_queue_result_push_st q it true
    decide (r.1.state = SPMC_Queue_State.OK) && spmc_push_list_ok r.2 rest

/-- Pop `n` times with `pop_st` (non-NULL output pointer), collecting the
values written to the caller's buffer. -/
def spmc_pop_list (q : SPMC_Queue α) : Nat → List (Option α) × SPMC_Queue α
  | 0 => ([], q)
  | n + 1 =>
    let r := spmc_queue_result_pop_st q true
    let rest := spmc_pop_list r.2.1 n
    (r.2.2 :: rest.1, rest.2)

/-! ## Arithmetic lemmas about the 64-bit helpers -/

theorem u64_lt (n : Nat) : u64 n < 2 ^ 64 := Nat.mod_lt _ (by norm_num)

theorem u64_of_lt {n : Nat} (h : n < 2 ^ 64) : u64 n = n := Nat.mod_eq_of_lt h

theorem u64_zero : u64 0 = 0 := rfl

theorem u64_add_left (a b : Nat) : u64 (u64 a + b) = u64 (a + b) := by
  simp [u64, Nat.mod_add_mod]

theorem sub64_u64 {a b : Nat} (h : b ≤ a) : sub64 (u64 a) (u64 b) = u64 (a - b) := by
  unfold sub64 u64
  omega

theorem toInt64_of_lt {n : Nat} (h : n < 2 ^ 63) : toInt64 n = (n : Int) := by
  have h64 : n < 2 ^ 64 := lt_trans h (by norm_num)
  unfold toInt64
  rw [u64_of_lt h64, if_pos h]

/-- `(int64_t)(a - b)` on stored `uint64_t` values is the true difference
when `b ≤ a` and the difference is below `2 ^ 63`. -/
theorem wrapDiff_eq {a b : Nat} (hba : b ≤ a) (hd : a - b < 2 ^ 63) :
    wrapDiff (u64 a) (u64 b) = (a : Int) - (b : Int) := by
  unfold wrapDiff
  rw [sub64_u64 hba, u64_of_lt (lt_trans hd (by norm_num)), toInt64_of_lt hd]
  omega

/-- The reversed difference `(int64_t)(b - a)` is the negated true
difference under the same bounds. -/
theorem wrapDiff_rev {a b : Nat} (hba : b ≤ a) (hd : a - b < 2 ^ 63) :
    wrapDiff (u64 b) (u64 a) = (b : Int) - (a : Int) := by
  unfold wrapDiff toInt64 sub64 u64
  split_ifs with h1 <;> omega

/-- Masking with `2 ^ k - 1` (for `k ≤ 64`) is reduction mod `2 ^ k`,
already absorbing the `uint64_t` reduction of the index. -/
theorem land_mask {m k : Nat} (hm : m + 1 = 2 ^ k) (hk : k ≤ 64) (i : Nat) :
    u64 i &&& m = i % 2 ^ k := by
  have hm' : m = 2 ^ k - 1 := by omega
  rw [hm', Nat.and_pow_two_sub_one_eq_mod]
  exact Nat.mod_mod_of_dvd i (pow_dvd_pow 2 hk)

/-- Distinct indices inside a window shorter than the capacity map to
distinct slots. -/
theorem mod_ne_of_window {i j M : Nat} (hij : i < j) (hw : j - i < M) :
    i % M ≠ j % M := by
  intro h
  have hd : M ∣ j - i := (Nat.modEq_iff_dvd' (le_of_lt hij)).1 h
  have := Nat.le_of_dvd (by omega) hd
  omega

theorem copy_count_eq {T P : Nat} (hTP : T ≤ P) (hd : P - T < 2 ^ 63) :
    _spmc_copy_count (u64 T) (u64 P) = P - T := by
  unfold _spmc_copy_count
  rcases Nat.eq_or_lt_of_le hTP with h | h
  · subst h
    rw [wrapDiff_rev le_rfl (by omega)]
    simp
  · rw [wrapDiff_rev hTP hd, if_pos (by omega), sub64_u64 hTP,
      u64_of_lt (lt_trans hd (by norm_num))]

/-! ## The capacity-doubling loop -/

theorem new_cap_loop_spec (to_size : Int) (h1 : 1 ≤ to_size) (h62 : to_size ≤ 2 ^ 62) :
    ∀ fuel k, 6 ≤ k → k ≤ 62 → to_size ≤ (2 : Int) ^ (k + fuel) →
    ∃ m, _spmc_new_cap_loop to_size (2 ^ k) fuel = 2 ^ m ∧ 6 ≤ m ∧ m ≤ 62 ∧
      k ≤ m ∧ to_size ≤ (2 : Int) ^ m ∧ (m = k ∨ (2 : Int) ^ (m - 1) < to_size) := by
  intro fuel
  induction fuel with
  | zero =>
    intro k hk6 hk62 hfit
    exact ⟨k, rfl, hk6, hk62, le_rfl, by simpa using hfit, Or.inl rfl⟩
  | succ n ih =>
    intro k hk6 hk62 hfit
    have hklt : (2 : Nat) ^ k < 2 ^ 63 := by
      exact Nat.pow_lt_pow_right (by norm_num) (by omega)
    have hto : toInt64 (2 ^ k) = ((2 ^ k : Nat) : Int) := toInt64_of_lt hklt
    have hcast : ((2 ^ k : Nat) : Int) = (2 : Int) ^ k := by norm_cast
    unfold _spmc_new_cap_loop
    by_cases hlt : toInt64 (2 ^ k) < to_size
    · rw [if_pos hlt]
      have hkval : (2 : Int) ^ k < to_size := by rw [← hcast, ← hto]; exact hlt
      have hk61 : k ≤ 61 := by
        by_contra hco
        have hk62' : k = 62 := by omega
        subst hk62'
        omega
      have hdouble : u64 (2 ^ k * 2) = 2 ^ (k + 1) := by
        rw [u64_of_lt]
        · ring
        · calc 2 ^ k * 2 = 2 ^ (k + 1) := by ring
            _ < 2 ^ 64 := Nat.pow_lt_pow_right (by norm_num) (by omega)
      rw [hdouble]
      have hfit' : to_size ≤ (2 : Int) ^ (k + 1 + n) := by
        have : k + 1 + n = k + (n + 1) := by ring
        rw [this]
        exact hfit
      obtain ⟨m, hem, hm6, hm62, hkm, hms, hmin⟩ := ih (k + 1) (by omega) (by omega) hfit'
      refine ⟨m, hem, hm6, hm62, by omega, hms, ?_⟩
      rcases hmin with hmk | hlt2
      · right
        have hmone : m - 1 = k := by omega
        rw [hmone]
        exact hkval
      · exact Or.inr hlt2
    · rw [if_neg hlt]
      have hle : to_size ≤ ((2 ^ k : Nat) : Int) := by omega
      exact ⟨k, rfl, hk6, hk62, le_rfl, by omega, Or.inl rfl⟩

/-- Characterisation of `_spmc_new_cap` in the regime the queue operates
in: it is a power of two between `64` and `2 ^ 62`, at least `to_size`,
and minimal with these properties. -/
theorem new_cap_spec (to_size : Int) (h1 : 1 ≤ to_size) (h62 : to_size ≤ 2 ^ 62) :
    ∃ m, _spmc_new_cap to_size = 2 ^ m ∧ 6 ≤ m ∧ m ≤ 62 ∧
      to_size ≤ (2 : Int) ^ m ∧ (m = 6 ∨ (2 : Int) ^ (m - 1) < to_size) := by
  have hfit : to_size ≤ (2 : Int) ^ (6 + 64) := by
    calc to_size ≤ 2 ^ 62 := h62
      _ ≤ (2 : Int) ^ 70 := by norm_num
  obtain ⟨m, hem, hm6, hm62, hkm, hms, hmin⟩ :=
    new_cap_loop_spec to_size h1 h62 64 6 le_rfl (by omega) hfit
  exact ⟨m, hem, hm6, hm62, hms, hmin⟩

/-- Minimality in "for all" form: `_spmc_new_cap to_size` is below any
power of two that is at least `64` and at least `to_size`. -/
theorem new_cap_min (to_size : Int) (h1 : 1 ≤ to_size) (h62 : to_size ≤ 2 ^ 62)
    {m j : Nat} (hm : _spmc_new_cap to_size = 2 ^ m) (hmm : 6 ≤ m)
    (hmin : m = 6 ∨ (2 : Int) ^ (m - 1) < to_size)
    (hj6 : 6 ≤ j) (hjfit : to_size ≤ (2 : Int) ^ j) : m ≤ j := by
  by_contra hco
  have hjm : j ≤ m - 1 := by omega
  rcases hmin with h6 | hlt
  · omega
  · have : (2 : Int) ^ j ≤ (2 : Int) ^ (m - 1) := by
      exact pow_le_pow_right₀ (by norm_num) hjm
    omega

theorem u64_u64 (n : Nat) : u64 (u64 n) = u64 n := by
  unfold u64
  exact Nat.mod_mod_of_dvd n dvd_rfl

/-! ## Correctness of the copy loop -/

/-- After `n ≤ capacity` iterations of the copy loop, every already-copied
slot holds the old block's value for the same logical index. -/
theorem copy_loop_get (old_data : Nat → α) (old_mask new_mask : Nat) {k : Nat}
    (hk : new_mask + 1 = 2 ^ k) (hk64 : k ≤ 64) (t : Nat) (base : Nat → α) :
    ∀ n, n ≤ 2 ^ k → ∀ m, m < n →
      _spmc_copy_loop old_data old_mask new_mask t base n (u64 (t + m) &&& new_mask) =
        old_data (u64 (t + m) &&& old_mask) := by
  intro n
  induction n with
  | zero => intro _ m hm; omega
  | succ n ih =>
    intro hn m hm
    unfold _spmc_copy_loop
    rcases Nat.lt_succ_iff_lt_or_eq.1 hm with hlt | heq
    · rw [Function.update_noteq]
      · exact ih (by omega) m hlt
      · rw [land_mask hk hk64, land_mask hk hk64]
        exact mod_ne_of_window (by omega) (by omega)
    · subst heq
      rw [Function.update_same]

/-! ## List helpers -/

theorem list_getD_append_length {β : Type} (l : List β) (b : β) (d : β) :
    (l ++ [b]).getD l.length d = b := by
  induction l with
  | nil => rfl
  | cons x xs ih => simpa using ih

theorem list_getD_append_lt {β : Type} (l : List β) (b : β) (d : β) {p : Nat}
    (hp : p < l.length) : (l ++ [b]).getD p d = l.getD p d := by
  induction l generalizing p with
  | nil => simp at hp
  | cons x xs ih =>
    cases p with
    | zero => rfl
    | succ p => simpa using ih (by simpa using hp)

theorem list_getD_set_self {β : Type} (l : List β) (p : Nat) (b d : β)
    (hp : p < l.length) : (l.set p b).getD p d = b := by
  induction l generalizing p with
  | nil => simp at hp
  | cons x xs ih =>
    cases p with
    | zero => rfl
    | succ p => simpa using ih p (by simpa using hp)

/-! ## The sequential state invariant -/

/-- Block half of the sequential invariant: either no block was installed
yet (then nothing was ever pushed), or the installed block pointer is valid,
its capacity is a power of two in `[64, 2 ^ 62]`, the live range fits, and
every live slot holds the pushed item of its logical index. -/
def BlockInv (q : SPMC_Queue α) (items : List α) (T : Nat) : Prop :=
  match q.push_block with
  | none => items.length = 0 ∧ T = 0
  | some p =>
    p < q.blocks.length ∧
    (∃ k, 6 ≤ k ∧ k ≤ 62 ∧ (getBlock q p).mask + 1 = 2 ^ k) ∧
    items.length - T ≤ (getBlock q p).mask + 1 ∧
    ∀ i, T ≤ i → i < items.length →
      (getBlock q p).data (u64 i &&& (getBlock q p).mask) = items.getD i default

/-- Sequential invariant of a queue into which the items of `items` were
pushed (in order) and from which the first `T` of them were popped.  The
counters store the `uint64_t` reductions of the absolute counts; the
cached estimates lag their authoritative counterparts in the direction that
keeps every use of `wrapDiff` on values whose true difference is below
`2 ^ 63`. -/
structure QInv (q : SPMC_Queue α) (items : List α) (T : Nat) : Prop where
  head_eq : q.push_head = u64 items.length
  tail_eq : q.pop_tail = u64 T
  t_le : T ≤ items.length
  est_head : ∃ e, q.pop_estimate_head = u64 e ∧ T ≤ e ∧ e ≤ items.length
  est_tail : ∃ e, q.push_estimate_tail = u64 e ∧ e ≤ T ∧
    ∀ p, q.push_block = some p → items.length - e ≤ (getBlock q p).mask + 1
  blk_eq : q.pop_block = q.push_block
  blk : BlockInv q items T

theorem qinv_init (α : Type) [Inhabited α] (item_size max_cap : Int) :
    QInv (spmc_queue_init α item_size max_cap) [] 0 := by
  refine ⟨rfl, rfl, le_rfl, ⟨0, rfl, le_rfl, le_rfl⟩, ⟨0, rfl, le_rfl, ?_⟩, rfl, ?_⟩
  · intro p hp
    simp [spmc_queue_init] at hp
  · exact ⟨rfl, rfl⟩

/-- Refreshing the producer's tail estimate from the authoritative consumer
tail preserves the invariant. -/
theorem qinv_refresh_tail {q : SPMC_Queue α} {items : List α} {T : Nat}
    (h : QInv q items T) :
    QInv { q with push_estimate_tail := q.pop_tail } items T := by
  obtain ⟨h1, h2, h3, h4, _, h6, h7⟩ := h
  refine ⟨h1, h2, h3, h4, ⟨T, h2, le_rfl, ?_⟩, h6, h7⟩
  intro p hp
  have hblk := h7
  unfold BlockInv at hblk
  rw [hp] at hblk
  exact hblk.2.2.1

/-! ## Frame lemmas for the growth engine -/

theorem reserve_frame (q : SPMC_Queue α) (to_size : Int) (ok : Bool) :
    (_spmc_queue_reserve q to_size ok).1.push_head = q.push_head ∧
    (_spmc_queue_reserve q to_size ok).1.pop_tail = q.pop_tail ∧
    (_spmc_queue_reserve q to_size ok).1.pop_estimate_head = q.pop_estimate_head ∧
    (_spmc_queue_reserve q to_size ok).1.push_estimate_tail = q.push_estimate_tail ∧
    (_spmc_queue_reserve q to_size ok).1.push_max_capacity = q.push_max_capacity := by
  unfold _spmc_queue_reserve
  split_ifs <;> exact ⟨rfl, rfl, rfl, rfl, rfl⟩

theorem reserve_not_grew {q : SPMC_Queue α} {to_size : Int} {ok : Bool}
    (h : (_spmc_queue_reserve q to_size ok).2 = false) :
    (_spmc_queue_reserve q to_size ok).1 = q := by
  unfold _spmc_queue_reserve at h ⊢
  split_ifs at h ⊢ <;> rfl

theorem old_cap_nonneg (q : SPMC_Queue α) : 0 ≤ _spmc_queue_old_cap q := by
  unfold _spmc_queue_old_cap
  rcases q.push_block with _ | p
  · simp
  · show 0 ≤ ((getBlock q p).mask : Int) + 1
    omega

/-- `_spmc_queue_reserve` preserves the sequential invariant, and when it
grows it installs a valid fresh block whose capacity is a power of two of
at least the requested size. -/
theorem qinv_reserve {q : SPMC_Queue α} {items : List α} {T : Nat} (h : QInv q items T)
    (to_size : Int) (alloc_ok : Bool) (hts : to_size ≤ 2 ^ 62) :
    QInv (_spmc_queue_reserve q to_size alloc_ok).1 items T ∧
    ((_spmc_queue_reserve q to_size alloc_ok).2 = true →
      ∃ p k, (_spmc_queue_reserve q to_size alloc_ok).1.push_block = some p ∧
        6 ≤ k ∧ k ≤ 62 ∧
        (getBlock (_spmc_queue_reserve q to_size alloc_ok).1 p).mask + 1 = 2 ^ k ∧
        to_size ≤ ((2 ^ k : Nat) : Int) ∧
        ∀ j, 6 ≤ j → to_size ≤ ((2 ^ j : Nat) : Int) → 2 ^ k ≤ 2 ^ j) := by
  by_cases hg : _spmc_queue_old_cap q < to_size ∧ to_size ≤ _spmc_queue_max_cap q
  case neg =>
    have hr : _spmc_queue_reserve q to_size alloc_ok = (q, false) := by
      unfold _spmc_queue_reserve
      rw [if_neg hg]
    rw [hr]
    exact ⟨h, by simp⟩
  case pos =>
    cases alloc_ok with
    | false =>
      have hr : _spmc_queue_reserve q to_size false = (q, false) := by
        unfold _spmc_queue_reserve
        rw [if_pos hg]
        simp
      rw [hr]
      exact ⟨h, by simp⟩
    | true =>
      have h1 : 1 ≤ to_size := lt_of_le_of_lt (old_cap_nonneg q) hg.1
      obtain ⟨m, hcap, hm6, hm62, hms, hmin⟩ := new_cap_spec to_size h1 hts
      have hcap1 : 1 ≤ _spmc_new_cap to_size := by
        rw [hcap]
        exact Nat.one_le_pow _ _ (by norm_num)
      have hmask1 : (_spmc_new_cap to_size - 1) + 1 = 2 ^ m := by omega
      have hmsn : to_size ≤ ((2 ^ m : Nat) : Int) := by
        have : ((2 ^ m : Nat) : Int) = (2 : Int) ^ m := by norm_cast
        omega
      have hr : _spmc_queue_reserve q to_size true =
          ({ q with
              blocks := q.blocks ++ [_spmc_queue_new_block q to_size]
              push_block := some q.blocks.length
              pop_block := some q.blocks.length }, true) := by
        unfold _spmc_queue_reserve
        rw [if_pos hg, if_pos rfl]
      rw [hr]
      have hgb : getBlock
          ({ q with
              blocks := q.blocks ++ [_spmc_queue_new_block q to_size]
              push_block := some q.blocks.length
              pop_block := some q.blocks.length } : SPMC_Queue α) q.blocks.length =
          _spmc_queue_new_block q to_size := by
        unfold getBlock
        exact list_getD_append_length _ _ _
      have hmaskv : (_spmc_queue_new_block q to_size).mask = _spmc_new_cap to_size - 1 := rfl
      -- facts needed about the live count
      have hlive : items.length - T ≤ 2 ^ m := by
        rcases hqp : q.push_block with _ | p
        · have hb := h.blk
          unfold BlockInv at hb
          rw [hqp] at hb
          omega
        · have hb := h.blk
          unfold BlockInv at hb
          rw [hqp] at hb
          obtain ⟨-, ⟨k0, hk06, hk062, hk0m⟩, hlv, -⟩ := hb
          have hoc : _spmc_queue_old_cap q = ((getBlock q p).mask : Int) + 1 := by
            unfold _spmc_queue_old_cap
            rw [hqp]
          have : ((getBlock q p).mask : Int) + 1 < to_size := by
            rw [← hoc]
            exact hg.1
          omega
      constructor
      · obtain ⟨eh, heh, hehT, hehP⟩ := h.est_head
        obtain ⟨et, het, hetT, hetc⟩ := h.est_tail
        refine ⟨h.head_eq, h.tail_eq, h.t_le, ⟨eh, heh, hehT, hehP⟩, ⟨et, het, hetT, ?_⟩, rfl, ?_⟩
        · intro p' hp'
          have hpL : q.blocks.length = p' := by
            simpa using hp'
          subst hpL
          rw [hgb, hmaskv, hmask1]
          rcases hqp : q.push_block with _ | p
          · have hb := h.blk
            unfold BlockInv at hb
            rw [hqp] at hb
            omega
          · have hc := hetc p hqp
            have hoc : _spmc_queue_old_cap q = ((getBlock q p).mask : Int) + 1 := by
              unfold _spmc_queue_old_cap
              rw [hqp]
            have : ((getBlock q p).mask : Int) + 1 < to_size := by
              rw [← hoc]
              exact hg.1
            omega
        · unfold BlockInv
          simp only []
          refine ⟨?_, ⟨m, hm6, hm62, ?_⟩, ?_, ?_⟩
          · simp
          · rw [hgb, hmaskv]
            exact hmask1
          · rw [hgb, hmaskv, hmask1]
            exact hlive
          · intro i hTi hiP
            rw [hgb, hmaskv]
            rcases hqp : q.push_block with _ | p
            · have hb := h.blk
              unfold BlockInv at hb
              rw [hqp] at hb
              omega
            · have hb := h.blk
              unfold BlockInv at hb
              rw [hqp] at hb
              obtain ⟨-, ⟨k0, hk06, hk062, hk0m⟩, hlv, hcont⟩ := hb
              have hdata : (_spmc_queue_new_block q to_size).data =
                  _spmc_copy_loop (getBlock q p).data (getBlock q p).mask
                    (_spmc_new_cap to_size - 1) q.pop_tail (fun _ => default)
                    (_spmc_copy_count q.pop_tail q.push_head) := by
                unfold _spmc_queue_new_block
                rw [hqp]
              rw [hdata, h.tail_eq, h.head_eq]
              have hPT63 : items.length - T < 2 ^ 63 := by
                have : (2 : Nat) ^ k0 ≤ 2 ^ 62 := Nat.pow_le_pow_right (by norm_num) hk062
                omega
              rw [copy_count_eq h.t_le hPT63]
              have hcg := copy_loop_get (getBlock q p).data (getBlock q p).mask
                (_spmc_new_cap to_size - 1) hmask1 (by omega) (u64 T) (fun _ => default)
                (items.length - T) hlive (i - T) (by omega)
              rw [u64_add_left] at hcg
              have hiT : T + (i - T) = i := by omega
              rw [hiT] at hcg
              rw [hcg]
              exact hcont i hTi hiP
      · intro _a
        refine ⟨q.blocks.length, m, by simp, hm6, hm62, ?_, hmsn, ?_⟩
        · rw [hgb, hmaskv]
          exact hmask1
        · intro j hj6 hjfit
          have hjfit2 : to_size ≤ (2 : Int) ^ j := by
            have : ((2 ^ j : Nat) : Int) = (2 : Int) ^ j := by norm_cast
            omega
          exact Nat.pow_le_pow_right (by norm_num)
            (new_cap_min to_size h1 hts hcap hm6 hmin hj6 hjfit2)

/-! ## Push-side lemmas -/

theorem list_getD_set {β : Type} (l : List β) (p p' : Nat) (b d : β) :
    (l.set p b).getD p' d = if p = p' ∧ p < l.length then b else l.getD p' d := by
  induction l generalizing p p' with
  | nil => simp
  | cons x xs ih =>
    cases p with
    | zero =>
      cases p' with
      | zero => simp
      | succ p' => simp
    | succ p =>
      cases p' with
      | zero => simp
      | succ p' =>
        simp only [List.set_cons_succ, List.getD_cons_succ, List.length_cons]
        rw [ih p p']
        by_cases hpp : p = p' ∧ p < xs.length
        · rw [if_pos hpp, if_pos ⟨by omega, by omega⟩]
        · rw [if_neg hpp, if_neg (by omega)]

/-- `_spmc_push_finish` changes no block's mask. -/
theorem finish_mask (q : SPMC_Queue α) (b : Option Nat) (head tailv : Nat) (it : α)
    (p' : Nat) :
    (getBlock (_spmc_push_finish q b head tailv it).2 p').mask = (getBlock q p').mask := by
  rcases b with _ | p
  · rfl
  · show (getBlock { q with
        blocks := q.blocks.set p (blockSet (getBlock q p) head it)
        push_head := u64 (head + 1) } p').mask = (getBlock q p').mask
    unfold getBlock
    rw [list_getD_set]
    by_cases hpp : p = p' ∧ p < q.blocks.length
    · rw [if_pos hpp]
      obtain ⟨hpe, hpl⟩ := hpp
      subst hpe
      rfl
    · rw [if_neg hpp]

/-- Interpretation of the push guard on a state satisfying the invariant:
no room exactly when the live range measured against the estimate fills the
whole block. -/
theorem no_room_iff {q : SPMC_Queue α} {items : List α} {T : Nat} (h : QInv q items T)
    {p : Nat} (hp : q.push_block = some p) {e : Nat} (heT : e ≤ T)
    (hecap : items.length - e ≤ (getBlock q p).mask + 1) :
    (_spmc_push_no_room q (some p) q.push_head (u64 e) = true ↔
      items.length - e = (getBlock q p).mask + 1) := by
  have hb := h.blk
  unfold BlockInv at hb
  rw [hp] at hb
  obtain ⟨-, ⟨k, hk6, hk62, hmk⟩, -, -⟩ := hb
  have hk62' : (2 : Nat) ^ k ≤ 2 ^ 62 := Nat.pow_le_pow_right (by norm_num) hk62
  have heP : e ≤ items.length := le_trans heT h.t_le
  have hd : items.length - e < 2 ^ 63 := by omega
  have hred : _spmc_push_no_room q (some p) q.push_head (u64 e) =
      decide (wrapDiff q.push_head (u64 e) > toInt64 (getBlock q p).mask) := rfl
  rw [hred, h.head_eq, wrapDiff_eq heP hd, toInt64_of_lt (by omega), decide_eq_true_iff]
  omega

/-- Writing the pushed item into a block with room: returns OK and extends
the invariant by the new item. -/
theorem qinv_push_write {q : SPMC_Queue α} {items : List α} {T : Nat} (h : QInv q items T)
    {p : Nat} (hp : q.push_block = some p) {e : Nat}
    (he : q.push_estimate_tail = u64 e) (heT : e ≤ T)
    (hroom : items.length - e ≤ (getBlock q p).mask) (it : α) {blk : Option Nat}
    (hblk : blk = some p) {hd : Nat}
    (hhd : hd = u64 items.length) (tailv : Nat) :
    (_spmc_push_finish q blk hd tailv it).1.state = SPMC_Queue_State.OK ∧
    QInv (_spmc_push_finish q blk hd tailv it).2 (items ++ [it]) T := by
  subst hblk
  subst hhd
  obtain ⟨blocks, pb, pt, peh, pis, pushb, pet, ph, psis, pmc⟩ := q
  have hp' : pushb = some p := hp
  subst hp'
  have hph : ph = u64 items.length := h.head_eq
  subst hph
  have hpt : pt = u64 T := h.tail_eq
  subst hpt
  have hpe : pet = u64 e := he
  subst hpe
  obtain ⟨eh, heh, hehT, hehP⟩ := h.est_head
  have hpeh : peh = u64 eh := heh
  subst hpeh
  have hpb : pb = some p := h.blk_eq
  subst hpb
  have hb := h.blk
  unfold BlockInv at hb
  obtain ⟨hplen, ⟨k, hk6, hk62, hmk⟩, hlv, hcont⟩ := hb
  have hTP : T ≤ items.length := h.t_le
  have hroomT : items.length - T ≤ (getBlock ⟨blocks, some p, u64 T, u64 eh, pis,
      some p, u64 e, u64 items.length, psis, pmc⟩ p).mask := by
    exact le_trans (by omega) hroom
  refine ⟨rfl, ?_⟩
  have hgb : ∀ qn : SPMC_Queue α, qn.blocks = blocks.set p
        (blockSet (getBlock ⟨blocks, some p, u64 T, u64 eh, pis, some p, u64 e,
          u64 items.length, psis, pmc⟩ p) (u64 items.length) it) →
      getBlock qn p = blockSet (getBlock ⟨blocks, some p, u64 T, u64 eh, pis, some p,
        u64 e, u64 items.length, psis, pmc⟩ p) (u64 items.length) it := by
    intro qn hqn
    unfold getBlock
    rw [hqn, list_getD_set, if_pos ⟨rfl, hplen⟩]
    rfl
  show QInv ⟨blocks.set p (blockSet (getBlock ⟨blocks, some p, u64 T, u64 eh, pis,
      some p, u64 e, u64 items.length, psis, pmc⟩ p) (u64 items.length) it),
    some p, u64 T, u64 eh, pis, some p, u64 e, u64 (u64 items.length + 1), psis, pmc⟩
    (items ++ [it]) T
  refine ⟨?_, rfl, by simp; omega, ⟨eh, rfl, hehT, by simp; omega⟩,
    ⟨e, rfl, heT, ?_⟩, rfl, ?_⟩
  · show u64 (u64 items.length + 1) = u64 (items ++ [it]).length
    rw [u64_add_left]
    simp
  · intro p' hp'
    have hpe2 : p = p' := by simpa using hp'
    subst hpe2
    rw [hgb _ rfl]
    show (items ++ [it]).length - e ≤ (getBlock ⟨blocks, some p, u64 T, u64 eh, pis,
      some p, u64 e, u64 items.length, psis, pmc⟩ p).mask + 1
    simp only [List.length_append, List.length_cons, List.length_nil]
    omega
  · unfold BlockInv
    refine ⟨by simpa using hplen, ⟨k, hk6, hk62, by rw [hgb _ rfl]; exact hmk⟩, ?_, ?_⟩
    · rw [hgb _ rfl]
      show (items ++ [it]).length - T ≤ (getBlock ⟨blocks, some p, u64 T, u64 eh, pis,
        some p, u64 e, u64 items.length, psis, pmc⟩ p).mask + 1
      simp only [List.length_append, List.length_cons, List.length_nil]
      omega
    · intro i hTi hiP
      rw [hgb _ rfl]
      show (blockSet (getBlock ⟨blocks, some p, u64 T, u64 eh, pis, some p, u64 e,
          u64 items.length, psis, pmc⟩ p) (u64 items.length) it).data
          (u64 i &&& (getBlock ⟨blocks, some p, u64 T, u64 eh, pis, some p, u64 e,
          u64 items.length, psis, pmc⟩ p).mask) = (items ++ [it]).getD i default
      unfold blockSet _spmc_queue_slot
      simp only []
      rw [u64_u64]
      simp only [List.length_append, List.length_cons, List.length_nil] at hiP
      rcases Nat.lt_succ_iff_lt_or_eq.1 (by omega : i < items.length + 1) with hlt | heq
      · rw [Function.update_noteq]
        · rw [hcont i hTi hlt]
          exact (list_getD_append_lt items it default hlt).symm
        · rw [land_mask hmk (by omega), land_mask hmk (by omega)]
          exact mod_ne_of_window hlt (by omega)
      · subst heq
        rw [Function.update_same]
        exact (list_getD_append_length items it default).symm

theorem reserve_alloc_false (q : SPMC_Queue α) (ts : Int) :
    _spmc_queue_reserve q ts false = (q, false) := by
  unfold _spmc_queue_reserve
  split_ifs <;> simp_all

theorem reserve_grew (q : SPMC_Queue α) (ts : Int) (ok : Bool) :
    ((_spmc_queue_reserve q ts ok).2 = true ↔
      ((_spmc_queue_old_cap q < ts ∧ ts ≤ _spmc_queue_max_cap q) ∧ ok = true)) := by
  unfold _spmc_queue_reserve
  split_ifs with h1 h2 <;> simp_all

theorem finish_frame (q : SPMC_Queue α) (b : Option Nat) (head tailv : Nat) (it : α) :
    (_spmc_push_finish q b head tailv it).2.push_block = q.push_block ∧
    (_spmc_push_finish q b head tailv it).2.pop_block = q.pop_block ∧
    (_spmc_push_finish q b head tailv it).2.pop_tail = q.pop_tail ∧
    (_spmc_push_finish q b head tailv it).2.push_max_capacity = q.push_max_capacity ∧
    (_spmc_push_finish q b head tailv it).1.state = SPMC_Queue_State.OK := by
  rcases b with _ | p <;> exact ⟨rfl, rfl, rfl, rfl, rfl⟩

/-- The value `head - tail + 1` that push passes to the growth engine, on
invariant states. -/
theorem push_to_size_eq {P T : Nat} (hTP : T ≤ P) (hsm : P - T < 2 ^ 62) :
    toInt64 (u64 (sub64 (u64 P) (u64 T) + 1)) = (P : Int) - T + 1 := by
  rw [sub64_u64 hTP, u64_add_left]
  have h1 : P - T + 1 < 2 ^ 64 := by omega
  have h2 : P - T + 1 < 2 ^ 63 := by omega
  unfold toInt64
  rw [u64_u64, u64_of_lt h1, if_pos h2]
  push_cast
  omega


/-! ### The execution paths of `push_st` -/

theorem push_st_eq_fast {q : SPMC_Queue α} (it : α) (ok : Bool)
    (hg : _spmc_push_no_room q q.push_block q.push_head q.push_estimate_tail = false) :
    spmc_queue_result_push_st q it ok =
      _spmc_push_finish q q.push_block q.push_head q.push_estimate_tail it := by
  simp only [spmc_queue_result_push_st]
  rw [hg]
  simp

theorem push_st_eq_mid {q : SPMC_Queue α} (it : α) (ok : Bool)
    (hg1 : _spmc_push_no_room q q.push_block q.push_head q.push_estimate_tail = true)
    (hg2 : _spmc_push_no_room { q with push_estimate_tail := q.pop_tail } q.push_block
      q.push_head q.pop_tail = false) :
    spmc_queue_result_push_st q it ok =
      _spmc_push_finish { q with push_estimate_tail := q.pop_tail } q.push_block
        q.push_head q.pop_tail it := by
  simp only [spmc_queue_result_push_st]
  rw [hg1, hg2]
  simp

theorem push_st_eq_full {q : SPMC_Queue α} (it : α) (ok : Bool)
    (hg1 : _spmc_push_no_room q q.push_block q.push_head q.push_estimate_tail = true)
    (hg2 : _spmc_push_no_room { q with push_estimate_tail := q.pop_tail } q.push_block
      q.push_head q.pop_tail = true)
    (hR : (_spmc_queue_reserve { q with push_estimate_tail := q.pop_tail }
      (toInt64 (u64 (sub64 q.push_head q.pop_tail + 1))) ok).2 = false) :
    spmc_queue_result_push_st q it ok =
      (⟨q.push_head, q.pop_tail, SPMC_Queue_State.FULL⟩,
        (_spmc_queue_reserve { q with push_estimate_tail := q.pop_tail }
          (toInt64 (u64 (sub64 q.push_head q.pop_tail + 1))) ok).1) := by
  simp only [spmc_queue_result_push_st]
  rw [hg1, hg2, hR]
  simp

theorem push_st_eq_grow {q : SPMC_Queue α} (it : α) (ok : Bool)
    (hg1 : _spmc_push_no_room q q.push_block q.push_head q.push_estimate_tail = true)
    (hg2 : _spmc_push_no_room { q with push_estimate_tail := q.pop_tail } q.push_block
      q.push_head q.pop_tail = true)
    (hR : (_spmc_queue_reserve { q with push_estimate_tail := q.pop_tail }
      (toInt64 (u64 (sub64 q.push_head q.pop_tail + 1))) ok).2 = true) :
    spmc_queue_result_push_st q it ok =
      _spmc_push_finish
        (_spmc_queue_reserve { q with push_estimate_tail := q.pop_tail }
          (toInt64 (u64 (sub64 q.push_head q.pop_tail + 1))) ok).1
        (_spmc_queue_reserve { q with push_estimate_tail := q.pop_tail }
          (toInt64 (u64 (sub64 q.push_head q.pop_tail + 1))) ok).1.push_block
        q.push_head q.pop_tail it := by
  simp only [spmc_queue_result_push_st]
  rw [hg1, hg2, hR]
  simp

/-- Behaviour of one `push_st` on an invariant state: the result is OK or
FULL, OK extends the invariant by the pushed item, FULL leaves it intact,
push succeeds whenever the required size is within the ceiling, the ceiling
itself never changes, and block capacities stay below any power-of-two
bound that covers the required size. -/
theorem qinv_push {q : SPMC_Queue α} {items : List α} {T : Nat} (h : QInv q items T)
    (hsm : items.length - T < 2 ^ 62) (it : α) (alloc_ok : Bool) :
    ((spmc_queue_result_push_st q it alloc_ok).1.state = SPMC_Queue_State.OK →
      QInv (spmc_queue_result_push_st q it alloc_ok).2 (items ++ [it]) T) ∧
    ((spmc_queue_result_push_st q it alloc_ok).1.state = SPMC_Queue_State.FULL →
      QInv (spmc_queue_result_push_st q it alloc_ok).2 items T) ∧
    ((spmc_queue_result_push_st q it alloc_ok).1.state = SPMC_Queue_State.OK ∨
      (spmc_queue_result_push_st q it alloc_ok).1.state = SPMC_Queue_State.FULL) ∧
    (alloc_ok = true → ((items.length : Int) - T + 1) ≤ _spmc_queue_max_cap q →
      (spmc_queue_result_push_st q it alloc_ok).1.state = SPMC_Queue_State.OK) ∧
    (spmc_queue_result_push_st q it alloc_ok).2.push_max_capacity = q.push_max_capacity ∧
    (∀ j, 6 ≤ j → ((items.length : Int) - T + 1) ≤ ((2 ^ j : Nat) : Int) →
      (∀ p0, q.push_block = some p0 → (getBlock q p0).mask + 1 ≤ 2 ^ j) →
      ∀ p', (spmc_queue_result_push_st q it alloc_ok).2.push_block = some p' →
        (getBlock (spmc_queue_result_push_st q it alloc_ok).2 p').mask + 1 ≤ 2 ^ j) := by
  obtain ⟨et, het, hetT, hetc⟩ := h.est_tail
  have hTP : T ≤ items.length := h.t_le
  have htseq : toInt64 (u64 (sub64 q.push_head q.pop_tail + 1)) =
      (items.length : Int) - T + 1 := by
    rw [h.head_eq, h.tail_eq]
    exact push_to_size_eq hTP hsm
  have hts62 : toInt64 (u64 (sub64 q.push_head q.pop_tail + 1)) ≤ 2 ^ 62 := by
    rw [htseq]
    push_cast
    omega
  have h2 : QInv { q with push_estimate_tail := q.pop_tail } items T := qinv_refresh_tail h
  rcases hqp : q.push_block with _ | p
  · -- no block yet: nothing was ever pushed
    have hb := h.blk
    unfold BlockInv at hb
    rw [hqp] at hb
    obtain ⟨hP0, hT0⟩ := hb
    have hg1 : _spmc_push_no_room q q.push_block q.push_head q.push_estimate_tail = true := by
      rw [hqp]
      rfl
    have hg2 : _spmc_push_no_room { q with push_estimate_tail := q.pop_tail } q.push_block
        q.push_head q.pop_tail = true := by
      rw [hqp]
      rfl
    have hts1 : toInt64 (u64 (sub64 q.push_head q.pop_tail + 1)) = 1 := by
      rw [htseq, hP0]
      simp
      omega
    have hoc : _spmc_queue_old_cap ({ q with push_estimate_tail := q.pop_tail } :
        SPMC_Queue α) = 0 := by
      unfold _spmc_queue_old_cap
      have hq2b : ({ q with push_estimate_tail := q.pop_tail } :
          SPMC_Queue α).push_block = none := hqp
      rw [hq2b]
    cases alloc_ok with
    | false =>
      have hRf : (_spmc_queue_reserve { q with push_estimate_tail := q.pop_tail }
          (toInt64 (u64 (sub64 q.push_head q.pop_tail + 1))) false).2 = false := by
        rw [reserve_alloc_false]
      rw [push_st_eq_full it false hg1 hg2 hRf, reserve_alloc_false]
      refine ⟨?_, ?_, ?_, ?_, ?_, ?_⟩
      · intro hco
        cases hco
      · intro _x
        exact h2
      · exact Or.inr rfl
      · intro hco
        cases hco
      · rfl
      · intro j hj6 hjfit hold p' hp'
        have hqb' : q.push_block = some p' := hp'
        rw [hqp] at hqb'
        cases hqb'
    | true =>
      by_cases hmc : (1 : Int) ≤ _spmc_queue_max_cap q
      · have hmcQ : _spmc_queue_max_cap ({ q with push_estimate_tail := q.pop_tail } :
            SPMC_Queue α) = _spmc_queue_max_cap q := rfl
        have hR2 : (_spmc_queue_reserve { q with push_estimate_tail := q.pop_tail }
            (toInt64 (u64 (sub64 q.push_head q.pop_tail + 1))) true).2 = true := by
          refine (reserve_grew _ _ true).2 ⟨⟨?_, ?_⟩, rfl⟩
          · rw [hoc, hts1]
            norm_num
          · rw [hts1, hmcQ]
            exact hmc
        obtain ⟨hQR, hgrow⟩ := qinv_reserve h2
          (toInt64 (u64 (sub64 q.push_head q.pop_tail + 1))) true hts62
        obtain ⟨L, k, hpL, hk6, hk62, hmask, htsk, hmin⟩ := hgrow hR2
        have hRe : (_spmc_queue_reserve { q with push_estimate_tail := q.pop_tail }
            (toInt64 (u64 (sub64 q.push_head q.pop_tail + 1))) true).1.push_estimate_tail =
            u64 T := by
          rw [(reserve_frame _ _ true).2.2.2.1]
          exact h.tail_eq
        have hW := qinv_push_write hQR hpL hRe le_rfl (by omega) it hpL h.head_eq q.pop_tail
        rw [push_st_eq_grow it true hg1 hg2 hR2]
        refine ⟨?_, ?_, ?_, ?_, ?_, ?_⟩
        · intro _x
          exact hW.2
        · intro hco
          rw [hW.1] at hco
          cases hco
        · exact Or.inl hW.1
        · intro _ _
          exact hW.1
        · rw [(finish_frame _ _ _ _ _).2.2.2.1]
          exact (reserve_frame _ _ true).2.2.2.2
        · intro j hj6 hjfit hold p' hp'
          rw [(finish_frame _ _ _ _ _).1, hpL] at hp'
          have hpe : L = p' := by simpa using hp'
          have hbnd : (getBlock (_spmc_queue_reserve
              { q with push_estimate_tail := q.pop_tail }
              (toInt64 (u64 (sub64 q.push_head q.pop_tail + 1))) true).1 L).mask + 1 ≤
              2 ^ j := by
            rw [hmask]
            refine hmin j hj6 ?_
            rw [hts1]
            have hc : ((2 ^ j : Nat) : Int) = (2 : Int) ^ j := by norm_cast
            have h2j : (1 : Int) ≤ (2 : Int) ^ j := one_le_pow₀ (by norm_num)
            omega
          rw [finish_mask]
          exact hpe ▸ hbnd
      · have hRf : (_spmc_queue_reserve { q with push_estimate_tail := q.pop_tail }
            (toInt64 (u64 (sub64 q.push_head q.pop_tail + 1))) true).2 = false := by
          cases hv : (_spmc_queue_reserve { q with push_estimate_tail := q.pop_tail }
              (toInt64 (u64 (sub64 q.push_head q.pop_tail + 1))) true).2 with
          | false => rfl
          | true =>
            obtain ⟨⟨-, hle⟩, -⟩ := (reserve_grew _ _ true).1 hv
            rw [hts1] at hle
            exact absurd hle hmc
        rw [push_st_eq_full it true hg1 hg2 hRf, reserve_not_grew hRf]
        refine ⟨?_, ?_, ?_, ?_, ?_, ?_⟩
        · intro hco
          cases hco
        · intro _x
          exact h2
        · exact Or.inr rfl
        · intro _ hmc2
          refine absurd ?_ hmc
          rw [hP0] at hmc2
          simp at hmc2
          omega
        · rfl
        · intro j hj6 hjfit hold p' hp'
          have hqb' : q.push_block = some p' := hp'
          rw [hqp] at hqb'
          cases hqb'
  · -- a block is installed
    have hb := h.blk
    unfold BlockInv at hb
    rw [hqp] at hb
    obtain ⟨hplen, ⟨k, hk6, hk62, hmk⟩, hlv, hcont⟩ := hb
    have hecap : items.length - et ≤ (getBlock q p).mask + 1 := hetc p hqp
    by_cases hfull1 : items.length - et = (getBlock q p).mask + 1
    case neg =>
      have hg : _spmc_push_no_room q q.push_block q.push_head q.push_estimate_tail =
          false := by
        rw [hqp, het]
        exact Bool.eq_false_iff.mpr (fun hco => hfull1 ((no_room_iff h hqp hetT hecap).1 hco))
      rw [push_st_eq_fast it alloc_ok hg]
      have hW := qinv_push_write h hqp het hetT (by omega) it hqp h.head_eq
        q.push_estimate_tail
      refine ⟨?_, ?_, ?_, ?_, ?_, ?_⟩
      · intro _x
        exact hW.2
      · intro hco
        rw [hW.1] at hco
        cases hco
      · exact Or.inl hW.1
      · intro _ _
        exact hW.1
      · exact (finish_frame _ _ _ _ _).2.2.2.1
      · intro j hj6 hjfit hold p' hp'
        rw [(finish_frame _ _ _ _ _).1, hqp] at hp'
        have hpe : p = p' := by simpa using hp'
        rw [finish_mask]
        exact hpe ▸ hold p rfl
    case pos =>
      have hg1 : _spmc_push_no_room q q.push_block q.push_head q.push_estimate_tail =
          true := by
        rw [hqp, het]
        exact (no_room_iff h hqp hetT hecap).2 hfull1
      have hq2b : ({ q with push_estimate_tail := q.pop_tail } :
          SPMC_Queue α).push_block = some p := hqp
      have hRe2 : ({ q with push_estimate_tail := q.pop_tail } :
          SPMC_Queue α).push_estimate_tail = u64 T := h.tail_eq
      by_cases hfull2 : items.length - T = (getBlock q p).mask + 1
      case neg =>
        have harg : _spmc_push_no_room ({ q with push_estimate_tail := q.pop_tail } :
            SPMC_Queue α) q.push_block q.push_head q.pop_tail =
            _spmc_push_no_room ({ q with push_estimate_tail := q.pop_tail } :
            SPMC_Queue α) (some p) q.push_head (u64 T) := by
          rw [hqp, h.tail_eq]
        have hg2 : _spmc_push_no_room { q with push_estimate_tail := q.pop_tail }
            q.push_block q.push_head q.pop_tail = false := by
          rw [harg]
          exact Bool.eq_false_iff.mpr
            (fun hco => hfull2 ((no_room_iff h2 hq2b le_rfl hlv).1 hco))
        rw [push_st_eq_mid it alloc_ok hg1 hg2]
        have hroom2 : items.length - T ≤ (getBlock
            ({ q with push_estimate_tail := q.pop_tail } : SPMC_Queue α) p).mask := by
          show items.length - T ≤ (getBlock q p).mask
          omega
        have hW := qinv_push_write h2 hq2b hRe2 le_rfl hroom2 it hqp h.head_eq q.pop_tail
        refine ⟨?_, ?_, ?_, ?_, ?_, ?_⟩
        · intro _x
          exact hW.2
        · intro hco
          rw [hW.1] at hco
          cases hco
        · exact Or.inl hW.1
        · intro _ _
          exact hW.1
        · exact (finish_frame _ _ _ _ _).2.2.2.1
        · intro j hj6 hjfit hold p' hp'
          rw [(finish_frame _ _ _ _ _).1, hqp] at hp'
          have hpe : p = p' := by simpa using hp'
          rw [finish_mask]
          exact hpe ▸ hold p rfl
      case pos =>
        have harg : _spmc_push_no_room ({ q with push_estimate_tail := q.pop_tail } :
            SPMC_Queue α) q.push_block q.push_head q.pop_tail =
            _spmc_push_no_room ({ q with push_estimate_tail := q.pop_tail } :
            SPMC_Queue α) (some p) q.push_head (u64 T) := by
          rw [hqp, h.tail_eq]
        have hg2 : _spmc_push_no_room { q with push_estimate_tail := q.pop_tail }
            q.push_block q.push_head q.pop_tail = true := by
          rw [harg]
          exact (no_room_iff h2 hq2b le_rfl hlv).2 hfull2
        have hocp : _spmc_queue_old_cap ({ q with push_estimate_tail := q.pop_tail } :
            SPMC_Queue α) = ((getBlock q p).mask : Int) + 1 := by
          unfold _spmc_queue_old_cap
          rw [hq2b]
          rfl
        have hmcQ : _spmc_queue_max_cap ({ q with push_estimate_tail := q.pop_tail } :
            SPMC_Queue α) = _spmc_queue_max_cap q := rfl
        have hguard1 : _spmc_queue_old_cap ({ q with push_estimate_tail := q.pop_tail } :
            SPMC_Queue α) < toInt64 (u64 (sub64 q.push_head q.pop_tail + 1)) := by
          rw [hocp, htseq]
          push_cast
          omega
        cases hR2v : (_spmc_queue_reserve { q with push_estimate_tail := q.pop_tail }
            (toInt64 (u64 (sub64 q.push_head q.pop_tail + 1))) alloc_ok).2 with
        | false =>
          rw [push_st_eq_full it alloc_ok hg1 hg2 hR2v, reserve_not_grew hR2v]
          refine ⟨?_, ?_, ?_, ?_, ?_, ?_⟩
          · intro hco
            cases hco
          · intro _x
            exact h2
          · exact Or.inr rfl
          · intro hok hmc2
            subst hok
            have : (_spmc_queue_reserve { q with push_estimate_tail := q.pop_tail }
                (toInt64 (u64 (sub64 q.push_head q.pop_tail + 1))) true).2 = true := by
              refine (reserve_grew _ _ true).2 ⟨⟨hguard1, ?_⟩, rfl⟩
              rw [htseq, hmcQ]
              exact hmc2
            rw [this] at hR2v
            cases hR2v
          · rfl
          · intro j hj6 hjfit hold p' hp'
            have hqb' : q.push_block = some p' := hp'
            rw [hqp] at hqb'
            have hpe : p = p' := by simpa using hqb'
            exact hpe ▸ hold p rfl
        | true =>
          obtain ⟨hQR, hgrow⟩ := qinv_reserve h2
            (toInt64 (u64 (sub64 q.push_head q.pop_tail + 1))) alloc_ok hts62
          obtain ⟨L, k', hpL, hk'6, hk'62, hmask, htsk, hmin⟩ := hgrow hR2v
          have hRe : (_spmc_queue_reserve { q with push_estimate_tail := q.pop_tail }
              (toInt64 (u64 (sub64 q.push_head q.pop_tail + 1)))
              alloc_ok).1.push_estimate_tail = u64 T := by
            rw [(reserve_frame _ _ alloc_ok).2.2.2.1]
            exact h.tail_eq
          have hroomL : items.length - T ≤ (getBlock
              (_spmc_queue_reserve { q with push_estimate_tail := q.pop_tail }
                (toInt64 (u64 (sub64 q.push_head q.pop_tail + 1))) alloc_ok).1 L).mask := by
            rw [htseq] at htsk
            omega
          have hW := qinv_push_write hQR hpL hRe le_rfl hroomL it hpL h.head_eq q.pop_tail
          rw [push_st_eq_grow it alloc_ok hg1 hg2 hR2v]
          refine ⟨?_, ?_, ?_, ?_, ?_, ?_⟩
          · intro _x
            exact hW.2
          · intro hco
            rw [hW.1] at hco
            cases hco
          · exact Or.inl hW.1
          · intro _ _
            exact hW.1
          · rw [(finish_frame _ _ _ _ _).2.2.2.1]
            exact (reserve_frame _ _ alloc_ok).2.2.2.2
          · intro j hj6 hjfit hold p' hp'
            rw [(finish_frame _ _ _ _ _).1, hpL] at hp'
            have hpe : L = p' := by simpa using hp'
            have hbnd : (getBlock (_spmc_queue_reserve
                { q with push_estimate_tail := q.pop_tail }
                (toInt64 (u64 (sub64 q.push_head q.pop_tail + 1))) alloc_ok).1 L).mask + 1 ≤
                2 ^ j := by
              rw [hmask]
              refine hmin j hj6 ?_
              rw [htseq]
              exact hjfit
            rw [finish_mask]
            exact hpe ▸ hbnd

/-! ## Pop-side lemmas -/

theorem QInv.live_le {q : SPMC_Queue α} {items : List α} {T : Nat} (h : QInv q items T) :
    items.length - T ≤ 2 ^ 62 := by
  have hb := h.blk
  unfold BlockInv at hb
  rcases hqp : q.push_block with _ | p
  · rw [hqp] at hb
    omega
  · rw [hqp] at hb
    obtain ⟨-, ⟨k, hk6, hk62, hmk⟩, hlv, -⟩ := hb
    have : (2 : Nat) ^ k ≤ 2 ^ 62 := Nat.pow_le_pow_right (by norm_num) hk62
    omega

theorem pop_st_eq_fast {q : SPMC_Queue α} (ptr : Bool)
    (hg : ¬wrapDiff q.pop_estimate_head q.pop_tail ≤ 0) :
    spmc_queue_result_pop_st q ptr =
      (⟨q.pop_estimate_head, q.pop_tail, SPMC_Queue_State.OK⟩,
        { q with pop_tail := u64 (q.pop_tail + 1) }, _spmc_pop_read q q.pop_tail ptr) := by
  simp only [spmc_queue_result_pop_st]
  rw [if_neg hg]

theorem pop_st_eq_empty {q : SPMC_Queue α} (ptr : Bool)
    (hg1 : wrapDiff q.pop_estimate_head q.pop_tail ≤ 0)
    (hg2 : wrapDiff q.push_head q.pop_tail ≤ 0) :
    spmc_queue_result_pop_st q ptr =
      (⟨q.push_head, q.pop_tail, SPMC_Queue_State.EMPTY⟩,
        { q with pop_estimate_head := q.push_head }, none) := by
  simp only [spmc_queue_result_pop_st]
  rw [if_pos hg1, if_pos hg2]

theorem pop_st_eq_refresh {q : SPMC_Queue α} (ptr : Bool)
    (hg1 : wrapDiff q.pop_estimate_head q.pop_tail ≤ 0)
    (hg2 : ¬wrapDiff q.push_head q.pop_tail ≤ 0) :
    spmc_queue_result_pop_st q ptr =
      (⟨q.push_head, q.pop_tail, SPMC_Queue_State.OK⟩,
        { q with pop_estimate_head := q.push_head, pop_tail := u64 (q.pop_tail + 1) },
        _spmc_pop_read { q with pop_estimate_head := q.push_head } q.pop_tail ptr) := by
  simp only [spmc_queue_result_pop_st]
  rw [if_pos hg1, if_neg hg2]

/-- The pop-side state invariant after the tail advance, shared by all
successful pop paths.  `peh'` is the (possibly refreshed) head estimate. -/
theorem qinv_pop_advance {q : SPMC_Queue α} {items : List α} {T : Nat} (h : QInv q items T)
    (hlt : T < items.length) {eh' : Nat} (hehT : T + 1 ≤ eh') (hehP : eh' ≤ items.length)
    {qn : SPMC_Queue α}
    (hqn : qn = { q with pop_estimate_head := u64 eh', pop_tail := u64 (T + 1) }) :
    QInv qn items (T + 1) := by
  subst hqn
  obtain ⟨et, het, hetT, hetc⟩ := h.est_tail
  refine ⟨h.head_eq, rfl, hlt, ⟨eh', rfl, hehT, hehP⟩,
    ⟨et, het, by omega, hetc⟩, h.blk_eq, ?_⟩
  have hb := h.blk
  unfold BlockInv at hb ⊢
  rcases hqp : q.push_block with _ | p
  · rw [hqp] at hb
    omega
  · rw [hqp] at hb
    obtain ⟨hplen, hkex, hlv, hcont⟩ := hb
    refine ⟨hplen, hkex, ?_, fun i hTi hiP => hcont i (by omega) hiP⟩
    show items.length - (T + 1) ≤ (getBlock q p).mask + 1
    omega

/-- Behaviour of one `pop_st` on an invariant state: on a non-empty queue
it returns OK, advances the tail past the oldest item and writes exactly
that item to a non-NULL output buffer (nothing for a NULL one); on an
empty queue it returns EMPTY, refreshes the head estimate and leaves the
buffer untouched. -/
theorem qinv_pop_st {q : SPMC_Queue α} {items : List α} {T : Nat} (h : QInv q items T)
    (item_ptr : Bool) :
    (T < items.length →
      (spmc_queue_result_pop_st q item_ptr).1.state = SPMC_Queue_State.OK ∧
      QInv (spmc_queue_result_pop_st q item_ptr).2.1 items (T + 1) ∧
      (spmc_queue_result_pop_st q item_ptr).2.2 =
        (if item_ptr then some (items.getD T default) else none)) ∧
    (T = items.length →
      (spmc_queue_result_pop_st q item_ptr).1.state = SPMC_Queue_State.EMPTY ∧
      QInv (spmc_queue_result_pop_st q item_ptr).2.1 items T ∧
      (spmc_queue_result_pop_st q item_ptr).2.2 = none) := by
  obtain ⟨eh, heh, hehT, hehP⟩ := h.est_head
  have hlive := h.live_le
  have hTP := h.t_le
  constructor
  · intro hlt
    -- non-empty: the block exists and holds the item at index T
    have hb := h.blk
    unfold BlockInv at hb
    rcases hqp : q.push_block with _ | p
    · rw [hqp] at hb
      omega
    rw [hqp] at hb
    obtain ⟨hplen, ⟨k, hk6, hk62, hmk⟩, hlv, hcont⟩ := hb
    have hpopb : q.pop_block = some p := by rw [h.blk_eq, hqp]
    have hread : _spmc_pop_read q q.pop_tail item_ptr =
        (if item_ptr then some (items.getD T default) else none) := by
      unfold _spmc_pop_read
      cases item_ptr with
      | false => rfl
      | true =>
        rw [if_pos rfl, if_pos rfl]
        rw [hpopb]
        show some (blockGet (getBlock q p) q.pop_tail) = some (items.getD T default)
        unfold blockGet _spmc_queue_slot
        rw [h.tail_eq, u64_u64]
        rw [hcont T le_rfl hlt]
    rcases Nat.eq_or_lt_of_le hehT with hehe | hehlt
    · -- stale estimate equals the tail: refresh sees the real head
      have hg1 : wrapDiff q.pop_estimate_head q.pop_tail ≤ 0 := by
        rw [heh, h.tail_eq, ← hehe, wrapDiff_eq le_rfl (by omega)]
        omega
      have hg2 : ¬wrapDiff q.push_head q.pop_tail ≤ 0 := by
        rw [h.head_eq, h.tail_eq, wrapDiff_eq hTP (by omega)]
        push_cast
        omega
      rw [pop_st_eq_refresh item_ptr hg1 hg2]
      refine ⟨rfl, ?_, ?_⟩
      · refine qinv_pop_advance h hlt (show T + 1 ≤ items.length by omega) le_rfl ?_
        rw [h.head_eq, h.tail_eq, u64_add_left]
      · show _spmc_pop_read { q with pop_estimate_head := q.push_head } q.pop_tail
            item_ptr = _
        rw [← hread]
        cases item_ptr <;> rfl
    · -- the cached estimate already proves non-emptiness
      have hg : ¬wrapDiff q.pop_estimate_head q.pop_tail ≤ 0 := by
        rw [heh, h.tail_eq, wrapDiff_eq (by omega) (by omega)]
        push_cast
        omega
      rw [pop_st_eq_fast item_ptr hg]
      refine ⟨rfl, ?_, hread⟩
      refine qinv_pop_advance h hlt (show T + 1 ≤ eh by omega) hehP ?_
      rw [heh, h.tail_eq, u64_add_left]
  · intro heq
    have hehe : eh = T := by omega
    have hg1 : wrapDiff q.pop_estimate_head q.pop_tail ≤ 0 := by
      rw [heh, h.tail_eq, hehe, wrapDiff_eq le_rfl (by omega)]
      omega
    have hg2 : wrapDiff q.push_head q.pop_tail ≤ 0 := by
      rw [h.head_eq, h.tail_eq, ← heq, wrapDiff_eq le_rfl (by omega)]
      omega
    rw [pop_st_eq_empty item_ptr hg1 hg2]
    obtain ⟨et, het, hetT, hetc⟩ := h.est_tail
    refine ⟨rfl, ?_, rfl⟩
    refine ⟨h.head_eq, h.tail_eq, hTP, ⟨items.length, h.head_eq, by omega, le_rfl⟩,
      ⟨et, het, hetT, hetc⟩, h.blk_eq, ?_⟩
    have hb := h.blk
    unfold BlockInv at hb ⊢
    rcases hqp : q.push_block with _ | p
    · rw [hqp] at hb
      exact hb
    · rw [hqp] at hb
      exact hb

theorem pop_weak_at_eq_fast {q : SPMC_Queue α} (ptr : Bool) (t' : Nat)
    (hg : ¬wrapDiff q.pop_tail q.pop_estimate_head ≥ 0) :
    spmc_queue_result_pop_weak_at q ptr t' =
      _spmc_pop_weak_cas q q.pop_estimate_head q.pop_tail ptr t' := by
  simp only [spmc_queue_result_pop_weak_at]
  rw [if_neg hg]

theorem pop_weak_at_eq_empty {q : SPMC_Queue α} (ptr : Bool) (t' : Nat)
    (hg1 : wrapDiff q.pop_tail q.pop_estimate_head ≥ 0)
    (hg2 : wrapDiff q.pop_tail q.push_head ≥ 0) :
    spmc_queue_result_pop_weak_at q ptr t' =
      (⟨q.push_head, q.pop_tail, SPMC_Queue_State.EMPTY⟩,
        { q with pop_estimate_head := q.push_head }, none) := by
  simp only [spmc_queue_result_pop_weak_at]
  rw [if_pos hg1, if_pos hg2]

theorem pop_weak_at_eq_refresh {q : SPMC_Queue α} (ptr : Bool) (t' : Nat)
    (hg1 : wrapDiff q.pop_tail q.pop_estimate_head ≥ 0)
    (hg2 : ¬wrapDiff q.pop_tail q.push_head ≥ 0) :
    spmc_queue_result_pop_weak_at q ptr t' =
      _spmc_pop_weak_cas { q with pop_estimate_head := q.push_head } q.push_head
        q.pop_tail ptr t' := by
  simp only [spmc_queue_result_pop_weak_at]
  rw [if_pos hg1, if_neg hg2]

/-- An uncontended CAS (the shared tail still holds the value read at
entry) succeeds. -/
theorem pop_weak_cas_self (q : SPMC_Queue α) (head tail : Nat) (ptr : Bool) :
    _spmc_pop_weak_cas q head tail ptr tail =
      (⟨head, tail, SPMC_Queue_State.OK⟩, { q with pop_tail := u64 (tail + 1) },
        _spmc_pop_read q tail ptr) := by
  unfold _spmc_pop_weak_cas
  rw [if_pos rfl]

/-- Behaviour of one sequential `pop_weak` (no interference, so the CAS
always succeeds and FAILED_RACE is impossible): same contract as
`pop_st`. -/
theorem qinv_pop_weak {q : SPMC_Queue α} {items : List α} {T : Nat} (h : QInv q items T)
    (item_ptr : Bool) :
    (T < items.length →
      (spmc_queue_result_pop_weak q item_ptr).1.state = SPMC_Queue_State.OK ∧
      QInv (spmc_queue_result_pop_weak q item_ptr).2.1 items (T + 1) ∧
      (spmc_queue_result_pop_weak q item_ptr).2.2 =
        (if item_ptr then some (items.getD T default) else none)) ∧
    (T = items.length →
      (spmc_queue_result_pop_weak q item_ptr).1.state = SPMC_Queue_State.EMPTY ∧
      QInv (spmc_queue_result_pop_weak q item_ptr).2.1 items T ∧
      (spmc_queue_result_pop_weak q item_ptr).2.2 = none) := by
  obtain ⟨eh, heh, hehT, hehP⟩ := h.est_head
  have hlive := h.live_le
  have hTP := h.t_le
  unfold spmc_queue_result_pop_weak
  constructor
  · intro hlt
    have hb := h.blk
    unfold BlockInv at hb
    rcases hqp : q.push_block with _ | p
    · rw [hqp] at hb
      omega
    rw [hqp] at hb
    obtain ⟨hplen, ⟨k, hk6, hk62, hmk⟩, hlv, hcont⟩ := hb
    have hpopb : q.pop_block = some p := by rw [h.blk_eq, hqp]
    have hread : _spmc_pop_read q q.pop_tail item_ptr =
        (if item_ptr then some (items.getD T default) else none) := by
      unfold _spmc_pop_read
      cases item_ptr with
      | false => rfl
      | true =>
        rw [if_pos rfl, if_pos rfl]
        rw [hpopb]
        show some (blockGet (getBlock q p) q.pop_tail) = some (items.getD T default)
        unfold blockGet _spmc_queue_slot
        rw [h.tail_eq, u64_u64]
        rw [hcont T le_rfl hlt]
    rcases Nat.eq_or_lt_of_le hehT with hehe | hehlt
    · have hg1 : wrapDiff q.pop_tail q.pop_estimate_head ≥ 0 := by
        rw [heh, h.tail_eq, ← hehe, wrapDiff_eq le_rfl (by omega)]
        omega
      have hg2 : ¬wrapDiff q.pop_tail q.push_head ≥ 0 := by
        rw [h.head_eq, h.tail_eq, wrapDiff_rev hTP (by omega)]
        push_cast
        omega
      rw [pop_weak_at_eq_refresh item_ptr q.pop_tail hg1 hg2, pop_weak_cas_self]
      refine ⟨rfl, ?_, ?_⟩
      · refine qinv_pop_advance h hlt (show T + 1 ≤ items.length by omega) le_rfl ?_
        rw [h.head_eq, h.tail_eq, u64_add_left]
      · show _spmc_pop_read { q with pop_estimate_head := q.push_head } q.pop_tail
            item_ptr = _
        rw [← hread]
        cases item_ptr <;> rfl
    · have hg : ¬wrapDiff q.pop_tail q.pop_estimate_head ≥ 0 := by
        rw [heh, h.tail_eq, wrapDiff_rev (by omega) (by omega)]
        push_cast
        omega
      rw [pop_weak_at_eq_fast item_ptr q.pop_tail hg, pop_weak_cas_self]
      refine ⟨rfl, ?_, hread⟩
      refine qinv_pop_advance h hlt (show T + 1 ≤ eh by omega) hehP ?_
      rw [heh, h.tail_eq, u64_add_left]
  · intro heq
    have hehe : eh = T := by omega
    have hg1 : wrapDiff q.pop_tail q.pop_estimate_head ≥ 0 := by
      rw [heh, h.tail_eq, hehe, wrapDiff_eq le_rfl (by omega)]
      omega
    have hg2 : wrapDiff q.pop_tail q.push_head ≥ 0 := by
      rw [h.head_eq, h.tail_eq, ← heq, wrapDiff_eq le_rfl (by omega)]
      omega
    rw [pop_weak_at_eq_empty item_ptr q.pop_tail hg1 hg2]
    obtain ⟨et, het, hetT, hetc⟩ := h.est_tail
    refine ⟨rfl, ?_, rfl⟩
    refine ⟨h.head_eq, h.tail_eq, hTP, ⟨items.length, h.head_eq, by omega, le_rfl⟩,
      ⟨et, het, hetT, hetc⟩, h.blk_eq, ?_⟩
    have hb := h.blk
    unfold BlockInv at hb ⊢
    rcases hqp : q.push_block with _ | p
    · rw [hqp] at hb
      exact hb
    · rw [hqp] at hb
      exact hb

/-! ## Sequentially reachable states -/

/-- Queue states reachable by executing the public operations sequentially,
indexed by the list of items successfully pushed (in order) and the number
of items popped.  The numeric side conditions keep the requested sizes in
the regime where the C capacity loop terminates (about `2 ^ 62` slots,
i.e. several exbibytes of items - beyond them the C code itself hangs in
`_spmc_queue_reserve`). -/
inductive SPMC_Reach : SPMC_Queue α → List α → Nat → Prop where
  | init (item_size max_cap : Int) :
      SPMC_Reach (spmc_queue_init α item_size max_cap) [] 0
  | push {q : SPMC_Queue α} {items : List α} {T : Nat} (hr : SPMC_Reach q items T)
      (it : α) (alloc_ok : Bool) (hsm : items.length - T < 2 ^ 62) :
      SPMC_Reach (spmc_queue_result_push_st q it alloc_ok).2
        (if (spmc_queue_result_push_st q it alloc_ok).1.state = SPMC_Queue_State.OK
          then items ++ [it] else items) T
  | reserve {q : SPMC_Queue α} {items : List α} {T : Nat} (hr : SPMC_Reach q items T)
      (to_size : Int) (alloc_ok : Bool) (hts : to_size ≤ 2 ^ 62) :
      SPMC_Reach (_spmc_queue_reserve q to_size alloc_ok).1 items T
  | pop_st {q : SPMC_Queue α} {items : List α} {T : Nat} (hr : SPMC_Reach q items T)
      (ptr : Bool) :
      SPMC_Reach (spmc_queue_result_pop_st q ptr).2.1 items
        (if (spmc_queue_result_pop_st q ptr).1.state = SPMC_Queue_State.OK
          then T + 1 else T)
  | pop_weak {q : SPMC_Queue α} {items : List α} {T : Nat} (hr : SPMC_Reach q items T)
      (ptr : Bool) :
      SPMC_Reach (spmc_queue_result_pop_weak q ptr).2.1 items
        (if (spmc_queue_result_pop_weak q ptr).1.state = SPMC_Queue_State.OK
          then T + 1 else T)
  | pop {q : SPMC_Queue α} {items : List α} {T : Nat} (hr : SPMC_Reach q items T)
      (ptr : Bool) :
      SPMC_Reach (spmc_queue_result_pop q ptr).2.1 items
        (if (spmc_queue_result_pop q ptr).1.state = SPMC_Queue_State.OK
          then T + 1 else T)

/-- Every sequentially reachable state satisfies the invariant. -/
theorem reach_qinv {q : SPMC_Queue α} {items : List α} {T : Nat}
    (hr : SPMC_Reach q items T) : QInv q items T := by
  induction hr with
  | init item_size max_cap => exact qinv_init α item_size max_cap
  | push hr it ok hsm ih =>
    have hp := qinv_push ih hsm it ok
    rcases hp.2.2.1 with hOK | hFULL
    · rw [if_pos hOK]
      exact hp.1 hOK
    · rw [if_neg (ne_of_eq_of_ne hFULL (by decide))]
      exact hp.2.1 hFULL
  | reserve hr to_size ok hts ih => exact (qinv_reserve ih to_size ok hts).1
  | pop_st hr ptr ih =>
    rcases Nat.eq_or_lt_of_le ih.t_le with heq | hlt
    · obtain ⟨hst, hinv, -⟩ := (qinv_pop_st ih ptr).2 heq
      rw [if_neg (ne_of_eq_of_ne hst (by decide))]
      exact hinv
    · obtain ⟨hst, hinv, -⟩ := (qinv_pop_st ih ptr).1 hlt
      rw [if_pos hst]
      exact hinv
  | pop_weak hr ptr ih =>
    rcases Nat.eq_or_lt_of_le ih.t_le with heq | hlt
    · obtain ⟨hst, hinv, -⟩ := (qinv_pop_weak ih ptr).2 heq
      rw [if_neg (ne_of_eq_of_ne hst (by decide))]
      exact hinv
    · obtain ⟨hst, hinv, -⟩ := (qinv_pop_weak ih ptr).1 hlt
      rw [if_pos hst]
      exact hinv
  | pop hr ptr ih =>
    rename_i qq itemsq Tq
    rcases Nat.eq_or_lt_of_le ih.t_le with heq | hlt
    · obtain ⟨hst, hinv, -⟩ := (qinv_pop_weak ih ptr).2 heq
      have hstp : (spmc_queue_result_pop qq ptr).1.state = SPMC_Queue_State.EMPTY := hst
      rw [if_neg (ne_of_eq_of_ne hstp (by decide))]
      exact hinv
    · obtain ⟨hst, hinv, -⟩ := (qinv_pop_weak ih ptr).1 hlt
      have hstp : (spmc_queue_result_pop qq ptr).1.state = SPMC_Queue_State.OK := hst
      rw [if_pos hstp]
      exact hinv

/-! ## Iterated operations on invariant states -/

/-- Pushing a whole list on an unbounded queue: every push reports OK, the
invariant extends by the list, and the ceiling stays unchanged. -/
theorem push_list_qinv {q : SPMC_Queue α} {items : List α} {T : Nat} (h : QInv q items T)
    (l : List α) (hmax : q.push_max_capacity < 0)
    (hlen : items.length + l.length ≤ 2 ^ 61) :
    QInv (spmc_push_list q l) (items ++ l) T ∧ spmc_push_list_ok q l = true ∧
    (spmc_push_list q l).push_max_capacity = q.push_max_capacity := by
  induction l generalizing q items with
  | nil => simpa using ⟨h, rfl, rfl⟩
  | cons it rest ih =>
    have hTP := h.t_le
    have hsm : items.length - T < 2 ^ 62 := by omega
    have hmc : ((items.length : Int)) - T + 1 ≤ _spmc_queue_max_cap q := by
      unfold _spmc_queue_max_cap
      rw [if_neg (by omega)]
      push_cast
      omega
    have hp := qinv_push h hsm it true
    have hOK := hp.2.2.2.1 rfl hmc
    have hq' := hp.1 hOK
    have hmax' : (spmc_queue_result_push_st q it true).2.push_max_capacity < 0 := by
      rw [hp.2.2.2.2.1]
      exact hmax
    have hlen' : (items ++ [it]).length + rest.length ≤ 2 ^ 61 := by
      simp only [List.length_append, List.length_cons, List.length_nil]
      simp only [List.length_cons] at hlen
      omega
    obtain ⟨hinv, hok, hmaxeq⟩ := ih hq' hmax' hlen'
    refine ⟨?_, ?_, ?_⟩
    · show QInv (spmc_push_list (spmc_queue_result_push_st q it true).2 rest) _ T
      rw [show items ++ it :: rest = (items ++ [it]) ++ rest by simp]
      exact hinv
    · show (decide ((spmc_queue_result_push_st q it true).1.state = SPMC_Queue_State.OK) &&
        spmc_push_list_ok (spmc_queue_result_push_st q it true).2 rest) = true
      rw [hok, hOK]
      simp
    · show (spmc_push_list (spmc_queue_result_push_st q it true).2 rest).push_max_capacity =
        q.push_max_capacity
      rw [hmaxeq, hp.2.2.2.2.1]

/-- Popping `n ≤ live count` times with `pop_st`: the values written out are
exactly the next `n` pushed items, in push order. -/
theorem pop_list_spec {q : SPMC_Queue α} {items : List α} {T : Nat} (h : QInv q items T)
    (n : Nat) (hn : T + n ≤ items.length) :
    (spmc_pop_list q n).1 = ((items.drop T).take n).map some ∧
    QInv (spmc_pop_list q n).2 items (T + n) := by
  induction n generalizing q T with
  | zero => simpa using ⟨rfl, h⟩
  | succ n ih =>
    have hlt : T < items.length := by omega
    obtain ⟨hst, hinv, hout⟩ := (qinv_pop_st h true).1 hlt
    obtain ⟨hrec1, hrec2⟩ := ih hinv (by omega)
    have hdrop : items.drop T = items.getD T default :: items.drop (T + 1) := by
      rw [List.getD_eq_getElem items default hlt]
      exact List.drop_eq_getElem_cons hlt
    refine ⟨?_, ?_⟩
    · show (spmc_queue_result_pop_st q true).2.2 ::
        (spmc_pop_list (spmc_queue_result_pop_st q true).2.1 n).1 = _
      rw [hout, hrec1, hdrop]
      simp
    · show QInv (spmc_pop_list (spmc_queue_result_pop_st q true).2.1 n).2 items (T + (n + 1))
      rw [show T + (n + 1) = T + 1 + n by omega]
      exact hrec2

/-- `spmc_queue_count` on an invariant state reports the live item count. -/
theorem count_eq {q : SPMC_Queue α} {items : List α} {T : Nat} (h : QInv q items T)
    (hsm : items.length - T < 2 ^ 63) :
    spmc_queue_count q = (items.length : Int) - T := by
  have hTP := h.t_le
  unfold spmc_queue_count
  dsimp only
  rw [if_pos (Nat.zero_le _), h.head_eq, h.tail_eq, sub64_u64 hTP,
    u64_of_lt (by omega), toInt64_of_lt hsm]
  push_cast
  omega

theorem max_cap_congr {q q' : SPMC_Queue α}
    (h : q'.push_max_capacity = q.push_max_capacity) :
    _spmc_queue_max_cap q' = _spmc_queue_max_cap q := by
  unfold _spmc_queue_max_cap
  rw [h]

/-- Pushing a list while the capacity ceiling still has room: every push
succeeds and no block beyond `2 ^ k` slots ever appears. -/
theorem push_list_qinv_capped {q : SPMC_Queue α} {items : List α} (h : QInv q items 0)
    {k : Nat} (h6 : 6 ≤ k) (hk61 : k ≤ 61)
    (hmaxc : ((2 ^ k : Nat) : Int) ≤ _spmc_queue_max_cap q)
    (hcap : ∀ p0, q.push_block = some p0 → (getBlock q p0).mask + 1 ≤ 2 ^ k)
    (l : List α) (hlen : items.length + l.length ≤ 2 ^ k) :
    QInv (spmc_push_list q l) (items ++ l) 0 ∧
    spmc_push_list_ok q l = true ∧
    (spmc_push_list q l).push_max_capacity = q.push_max_capacity ∧
    (∀ p0, (spmc_push_list q l).push_block = some p0 →
      (getBlock (spmc_push_list q l) p0).mask + 1 ≤ 2 ^ k) := by
  have hk2 : 2 ^ k ≤ 2 ^ 61 := Nat.pow_le_pow_right (by norm_num) hk61
  induction l generalizing q items with
  | nil => simpa using ⟨h, rfl, rfl, hcap⟩
  | cons it rest ih =>
    have hsm : items.length - 0 < 2 ^ 62 := by
      simp only [List.length_cons] at hlen
      omega
    have hint : ((items.length : Int)) - 0 + 1 ≤ ((2 ^ k : Nat) : Int) := by
      simp only [List.length_cons] at hlen
      have h1 : items.length + 1 ≤ 2 ^ k := by omega
      omega
    have hp := qinv_push h hsm it true
    have hOK := hp.2.2.2.1 rfl (le_trans hint hmaxc)
    have hq' := hp.1 hOK
    have hcap' := hp.2.2.2.2.2 k h6 hint hcap
    have hmaxc' : ((2 ^ k : Nat) : Int) ≤
        _spmc_queue_max_cap (spmc_queue_result_push_st q it true).2 := by
      rw [max_cap_congr hp.2.2.2.2.1]
      exact hmaxc
    have hlen' : (items ++ [it]).length + rest.length ≤ 2 ^ k := by
      simp only [List.length_append, List.length_cons, List.length_nil]
      simp only [List.length_cons] at hlen
      omega
    obtain ⟨hinv, hok, hmaxeq, hcapr⟩ := ih hq' hmaxc' hcap' hlen'
    refine ⟨?_, ?_, ?_, ?_⟩
    · show QInv (spmc_push_list (spmc_queue_result_push_st q it true).2 rest) _ 0
      rw [show items ++ it :: rest = (items ++ [it]) ++ rest by simp]
      exact hinv
    · show (decide ((spmc_queue_result_push_st q it true).1.state = SPMC_Queue_State.OK) &&
        spmc_push_list_ok (spmc_queue_result_push_st q it true).2 rest) = true
      rw [hok, hOK]
      simp
    · show (spmc_push_list (spmc_queue_result_push_st q it true).2 rest).push_max_capacity =
        q.push_max_capacity
      rw [hmaxeq, hp.2.2.2.2.1]
    · exact hcapr

/-- When the live count has reached the capacity ceiling `2 ^ k`, `push_st`
reports FULL: both room tests fail on the (full) current block and the
growth request `2 ^ k + 1` exceeds the ceiling, so reserve declines. -/
theorem qinv_push_full_at_cap {q : SPMC_Queue α} {items : List α} (h : QInv q items 0)
    {k : Nat} (h6 : 6 ≤ k) (hk61 : k ≤ 61)
    (hmaxle : _spmc_queue_max_cap q ≤ ((2 ^ k : Nat) : Int))
    (hcap : ∀ p0, q.push_block = some p0 → (getBlock q p0).mask + 1 ≤ 2 ^ k)
    (hfullP : items.length = 2 ^ k) (it : α) (ok : Bool) :
    (spmc_queue_result_push_st q it ok).1.state = SPMC_Queue_State.FULL := by
  have hk2 : 2 ^ k ≤ 2 ^ 61 := Nat.pow_le_pow_right (by norm_num) hk61
  obtain ⟨et, het, hetT, hetc⟩ := h.est_tail
  have het0 : et = 0 := by omega
  have hsm : items.length - 0 < 2 ^ 62 := by omega
  have htseq : toInt64 (u64 (sub64 q.push_head q.pop_tail + 1)) =
      (items.length : Int) - 0 + 1 := by
    rw [h.head_eq, h.tail_eq]
    exact push_to_size_eq h.t_le hsm
  have h2 : QInv { q with push_estimate_tail := q.pop_tail } items 0 := qinv_refresh_tail h
  have h64 : (64 : Nat) ≤ 2 ^ k := by
    calc (64 : Nat) = 2 ^ 6 := by norm_num
    _ ≤ 2 ^ k := Nat.pow_le_pow_right (by norm_num) h6
  rcases hqp : q.push_block with _ | p
  case none =>
    have hb := h.blk
    unfold BlockInv at hb
    rw [hqp] at hb
    exact absurd hfullP (by omega)
  case some =>
    have hb := h.blk
    unfold BlockInv at hb
    rw [hqp] at hb
    obtain ⟨hplt, ⟨kk, hkk6, hkk62, hmk⟩, hlv, -⟩ := hb
    have hcapp := hcap p hqp
    have hmaskeq : (getBlock q p).mask + 1 = 2 ^ k := by
      have := hetc p hqp
      omega
    have hg1 : _spmc_push_no_room q q.push_block q.push_head q.push_estimate_tail =
        true := by
      rw [hqp, het]
      exact (no_room_iff h hqp hetT (by omega)).2 (by omega)
    have hq2p : ({ q with push_estimate_tail := q.pop_tail } :
        SPMC_Queue α).push_block = some p := hqp
    have hg2 : _spmc_push_no_room { q with push_estimate_tail := q.pop_tail } q.push_block
        q.push_head q.pop_tail = true := by
      rw [hqp, h.tail_eq]
      exact (no_room_iff h2 hq2p le_rfl
          (by show items.length - 0 ≤ (getBlock q p).mask + 1; omega)).2
        (by show items.length - 0 = (getBlock q p).mask + 1; omega)
    have hmcQ : _spmc_queue_max_cap ({ q with push_estimate_tail := q.pop_tail } :
        SPMC_Queue α) = _spmc_queue_max_cap q := rfl
    have hRf : (_spmc_queue_reserve { q with push_estimate_tail := q.pop_tail }
        (toInt64 (u64 (sub64 q.push_head q.pop_tail + 1))) ok).2 = false := by
      cases hv : (_spmc_queue_reserve { q with push_estimate_tail := q.pop_tail }
          (toInt64 (u64 (sub64 q.push_head q.pop_tail + 1))) ok).2 with
      | false => rfl
      | true =>
        obtain ⟨⟨-, hle⟩, -⟩ := (reserve_grew _ _ ok).1 hv
        rw [htseq, hmcQ] at hle
        have hle2 := le_trans hle hmaxle
        exact absurd hle2 (by omega)
    rw [push_st_eq_full it ok hg1 hg2 hRf]

/-- A push into a block with spare room returns OK: either the fast path
runs, or only the cached tail estimate looked full and the refresh path
runs. -/
theorem qinv_push_ok_of_room {q : SPMC_Queue α} {items : List α} {T : Nat}
    (h : QInv q items T) (hsm : items.length - T < 2 ^ 62)
    {p : Nat} (hp : q.push_block = some p)
    (hroom : items.length - T < (getBlock q p).mask + 1) (it : α) (ok : Bool) :
    (spmc_queue_result_push_st q it ok).1.state = SPMC_Queue_State.OK := by
  have h2 : QInv { q with push_estimate_tail := q.pop_tail } items T := qinv_refresh_tail h
  have hq2p : ({ q with push_estimate_tail := q.pop_tail } :
      SPMC_Queue α).push_block = some p := hp
  cases hg1v : _spmc_push_no_room q q.push_block q.push_head q.push_estimate_tail with
  | false =>
    rw [push_st_eq_fast it ok hg1v]
    exact (finish_frame q q.push_block q.push_head q.push_estimate_tail it).2.2.2.2
  | true =>
    have hg2 : _spmc_push_no_room { q with push_estimate_tail := q.pop_tail } q.push_block
        q.push_head q.pop_tail = false := by
      cases hv : _spmc_push_no_room { q with push_estimate_tail := q.pop_tail } q.push_block
          q.push_head q.pop_tail with
      | false => rfl
      | true =>
        have hv2 : _spmc_push_no_room { q with push_estimate_tail := q.pop_tail } (some p)
            q.push_head (u64 T) = true := by
          rw [← hp, ← h.tail_eq]
          exact hv
        have hfull := (no_room_iff h2 hq2p le_rfl
          (by show items.length - T ≤ (getBlock q p).mask + 1; omega)).1 hv2
        have hfull2 : items.length - T = (getBlock q p).mask + 1 := hfull
        exact absurd hfull2 (by omega)
    rw [push_st_eq_mid it ok hg1v hg2]
    exact (finish_frame { q with push_estimate_tail := q.pop_tail } q.push_block
      q.push_head q.pop_tail it).2.2.2.2

/-- Pushing a list under an exact ceiling `K` whose rounded-up capacity is
`2 ^ k`: as long as the total stays within `2 ^ k` slots every push
succeeds - the producer either finds room in the current block, or the
block is full at a strictly smaller power of two and the growth request
`2 ^ j + 1 ≤ 2 ^ (k-1) + 1 ≤ K` is within the ceiling - and no block
beyond `2 ^ k` slots ever appears. -/
theorem push_list_qinv_ceiling {q : SPMC_Queue α} {items : List α} (h : QInv q items 0)
    {K : Nat} (hK1 : 1 ≤ K) {k : Nat} (h6 : 6 ≤ k) (hk61 : k ≤ 61)
    (hKle : K ≤ 2 ^ k) (hkmin : k = 6 ∨ 2 ^ (k - 1) < K)
    (hmax : _spmc_queue_max_cap q = (K : Int))
    (hcap : ∀ p0, q.push_block = some p0 → (getBlock q p0).mask + 1 ≤ 2 ^ k)
    (l : List α) (hlen : items.length + l.length ≤ 2 ^ k) :
    QInv (spmc_push_list q l) (items ++ l) 0 ∧
    spmc_push_list_ok q l = true ∧
    (spmc_push_list q l).push_max_capacity = q.push_max_capacity ∧
    (∀ p0, (spmc_push_list q l).push_block = some p0 →
      (getBlock (spmc_push_list q l) p0).mask + 1 ≤ 2 ^ k) := by
  have hk2 : 2 ^ k ≤ 2 ^ 61 := Nat.pow_le_pow_right (by norm_num) hk61
  induction l generalizing q items with
  | nil => simpa using ⟨h, rfl, rfl, hcap⟩
  | cons it rest ih =>
    have hPk : items.length < 2 ^ k := by
      simp only [List.length_cons] at hlen
      omega
    have hsm : items.length - 0 < 2 ^ 62 := by omega
    have hint : ((items.length : Int)) - 0 + 1 ≤ ((2 ^ k : Nat) : Int) := by omega
    have hp := qinv_push h hsm it true
    have hOK : (spmc_queue_result_push_st q it true).1.state = SPMC_Queue_State.OK := by
      rcases hqp : q.push_block with _ | p
      · refine hp.2.2.2.1 rfl ?_
        have hb := h.blk
        unfold BlockInv at hb
        rw [hqp] at hb
        rw [hmax]
        omega
      · by_cases hroom : items.length - 0 < (getBlock q p).mask + 1
        · exact qinv_push_ok_of_room h hsm hqp hroom it true
        · have hb := h.blk
          unfold BlockInv at hb
          rw [hqp] at hb
          obtain ⟨-, ⟨j, hj6, -, hmj⟩, hlv, -⟩ := hb
          have hjk : (2 : Nat) ^ j < 2 ^ k := by omega
          have hjlt : j < k := (Nat.pow_lt_pow_iff_right (by norm_num)).1 hjk
          rcases hkmin with hke | hKlow
          · exact absurd hjlt (by omega)
          · have hj2 : (2 : Nat) ^ j ≤ 2 ^ (k - 1) :=
              Nat.pow_le_pow_right (by norm_num) (by omega)
            refine hp.2.2.2.1 rfl ?_
            rw [hmax]
            omega
    have hq' := hp.1 hOK
    have hcap' := hp.2.2.2.2.2 k h6 hint hcap
    have hmax' : _spmc_queue_max_cap (spmc_queue_result_push_st q it true).2 =
        (K : Int) := by
      rw [max_cap_congr hp.2.2.2.2.1]
      exact hmax
    have hlen' : (items ++ [it]).length + rest.length ≤ 2 ^ k := by
      simp only [List.length_append, List.length_cons, List.length_nil]
      simp only [List.length_cons] at hlen
      omega
    obtain ⟨hinv, hok, hmaxeq, hcapr⟩ := ih hq' hmax' hcap' hlen'
    refine ⟨?_, ?_, ?_, ?_⟩
    · show QInv (spmc_push_list (spmc_queue_result_push_st q it true).2 rest) _ 0
      rw [show items ++ it :: rest = (items ++ [it]) ++ rest by simp]
      exact hinv
    · show (decide ((spmc_queue_result_push_st q it true).1.state = SPMC_Queue_State.OK) &&
        spmc_push_list_ok (spmc_queue_result_push_st q it true).2 rest) = true
      rw [hok, hOK]
      simp
    · show (spmc_push_list (spmc_queue_result_push_st q it true).2 rest).push_max_capacity =
        q.push_max_capacity
      rw [hmaxeq, hp.2.2.2.2.1]
    · exact hcapr

/-! ## The claims -/

/-- C1: FIFO order: for every sequence of N items pushed one at a time by
the single producer via `push_st` (growing the queue as needed, here up to
the `2 ^ 61`-item regime in which the C code operates), a single consumer
repeatedly calling `pop_st` receives exactly those N items in push order,
and the next `pop_st` returns EMPTY. -/
theorem spec_C1_fifo (items : List α) (hN : items.length ≤ 2 ^ 61) :
    spmc_push_list_ok (spmc_queue_init α 8 (-1)) items = true ∧
    (spmc_pop_list (spmc_push_list (spmc_queue_init α 8 (-1)) items) items.length).1 =
      items.map some ∧
    (spmc_queue_result_pop_st
      (spmc_pop_list (spmc_push_list (spmc_queue_init α 8 (-1)) items) items.length).2
      true).1.state = SPMC_Queue_State.EMPTY := by
  have h0 := qinv_init α 8 (-1)
  obtain ⟨h1, hok, -⟩ := push_list_qinv h0 items (by norm_num [spmc_queue_init])
    (by simpa using hN)
  rw [List.nil_append] at h1
  obtain ⟨hpop1, hpop2⟩ := pop_list_spec h1 items.length (by omega)
  refine ⟨hok, ?_, ?_⟩
  · rw [hpop1]
    simp
  · exact ((qinv_pop_st hpop2 true).2 (by omega)).1

theorem spec_C1_fifo_witness :
    (([3, 1, 4, 1, 5] : List Nat).length ≤ 2 ^ 61) ∧
    (spmc_push_list_ok (spmc_queue_init Nat 8 (-1)) [3, 1, 4, 1, 5] = true ∧
    (spmc_pop_list (spmc_push_list (spmc_queue_init Nat 8 (-1)) [3, 1, 4, 1, 5])
      ([3, 1, 4, 1, 5] : List Nat).length).1 = ([3, 1, 4, 1, 5] : List Nat).map some ∧
    (spmc_queue_result_pop_st
      (spmc_pop_list (spmc_push_list (spmc_queue_init Nat 8 (-1)) [3, 1, 4, 1, 5])
        ([3, 1, 4, 1, 5] : List Nat).length).2 true).1.state = SPMC_Queue_State.EMPTY) :=
  ⟨by decide, spec_C1_fifo [3, 1, 4, 1, 5] (by decide)⟩

/-- C2: for every sequentially reachable queue state, the signed 64-bit
difference `head - tail` is nonnegative, equals the number of items
logically present (pushed but not yet popped), and never exceeds the
current block's capacity. -/
theorem spec_C2_invariant {q : SPMC_Queue α} {items : List α} {T : Nat}
    (hr : SPMC_Reach q items T) :
    0 ≤ wrapDiff q.push_head q.pop_tail ∧
    wrapDiff q.push_head q.pop_tail = (items.length : Int) - T ∧
    wrapDiff q.push_head q.pop_tail ≤ spmc_queue_capacity q := by
  have h := reach_qinv hr
  have hTP := h.t_le
  have hlive := h.live_le
  have hwd : wrapDiff q.push_head q.pop_tail = (items.length : Int) - T := by
    rw [h.head_eq, h.tail_eq, wrapDiff_eq hTP (by omega)]
  have hcap : (items.length : Int) - T ≤ spmc_queue_capacity q := by
    have hb := h.blk
    unfold BlockInv at hb
    rcases hqp : q.push_block with _ | p
    · rw [hqp] at hb
      have hpb : q.pop_block = none := by rw [h.blk_eq, hqp]
      unfold spmc_queue_capacity
      rw [hpb]
      push_cast
      omega
    · rw [hqp] at hb
      obtain ⟨-, -, hlv, -⟩ := hb
      have hpb : q.pop_block = some p := by rw [h.blk_eq, hqp]
      unfold spmc_queue_capacity
      rw [hpb]
      show (items.length : Int) - T ≤ ((getBlock q p).mask : Int) + 1
      omega
  exact ⟨by omega, hwd, by omega⟩

theorem spec_C2_invariant_witness :
    0 ≤ wrapDiff (spmc_queue_init Nat 8 (-1)).push_head
        (spmc_queue_init Nat 8 (-1)).pop_tail ∧
    wrapDiff (spmc_queue_init Nat 8 (-1)).push_head (spmc_queue_init Nat 8 (-1)).pop_tail =
      ((([] : List Nat).length) : Int) - (0 : Nat) ∧
    wrapDiff (spmc_queue_init Nat 8 (-1)).push_head (spmc_queue_init Nat 8 (-1)).pop_tail ≤
      spmc_queue_capacity (spmc_queue_init Nat 8 (-1)) :=
  spec_C2_invariant (SPMC_Reach.init 8 (-1))

/-- C7: whenever `push_st` returns FULL, the queue is observably unchanged:
`head`, `tail`, both block pointers and the block storage are exactly as
before the call (only the producer-private `estimate_tail` cache may have
been refreshed).  This holds for every queue state, not just reachable
ones. -/
theorem spec_C7_full_frame (q : SPMC_Queue α) (item : α) (alloc_ok : Bool)
    (h : (spmc_queue_result_push_st q item alloc_ok).1.state = SPMC_Queue_State.FULL) :
    (spmc_queue_result_push_st q item alloc_ok).2.push_head = q.push_head ∧
    (spmc_queue_result_push_st q item alloc_ok).2.pop_tail = q.pop_tail ∧
    (spmc_queue_result_push_st q item alloc_ok).2.push_block = q.push_block ∧
    (spmc_queue_result_push_st q item alloc_ok).2.pop_block = q.pop_block ∧
    (spmc_queue_result_push_st q item alloc_ok).2.blocks = q.blocks := by
  cases hg1 : _spmc_push_no_room q q.push_block q.push_head q.push_estimate_tail with
  | false =>
    rw [push_st_eq_fast item alloc_ok hg1,
      (finish_frame q q.push_block q.push_head q.push_estimate_tail item).2.2.2.2] at h
    exact absurd h (by decide)
  | true =>
    cases hg2 : _spmc_push_no_room { q with push_estimate_tail := q.pop_tail }
        q.push_block q.push_head q.pop_tail with
    | false =>
      rw [push_st_eq_mid item alloc_ok hg1 hg2,
        (finish_frame { q with push_estimate_tail := q.pop_tail } q.push_block
          q.push_head q.pop_tail item).2.2.2.2] at h
      exact absurd h (by decide)
    | true =>
      cases hR : (_spmc_queue_reserve { q with push_estimate_tail := q.pop_tail }
          (toInt64 (u64 (sub64 q.push_head q.pop_tail + 1))) alloc_ok).2 with
      | true =>
        rw [push_st_eq_grow item alloc_ok hg1 hg2 hR,
          (finish_frame _ _ q.push_head q.pop_tail item).2.2.2.2] at h
        exact absurd h (by decide)
      | false =>
        rw [push_st_eq_full item alloc_ok hg1 hg2 hR]
        rw [reserve_not_grew hR]
        exact ⟨rfl, rfl, rfl, rfl, rfl⟩

theorem spec_C7_full_frame_witness :
    (spmc_queue_result_push_st (spmc_queue_init Nat 8 0) 5 true).1.state =
      SPMC_Queue_State.FULL ∧
    ((spmc_queue_result_push_st (spmc_queue_init Nat 8 0) 5 true).2.push_head =
      (spmc_queue_init Nat 8 0).push_head ∧
    (spmc_queue_result_push_st (spmc_queue_init Nat 8 0) 5 true).2.pop_tail =
      (spmc_queue_init Nat 8 0).pop_tail ∧
    (spmc_queue_result_push_st (spmc_queue_init Nat 8 0) 5 true).2.push_block =
      (spmc_queue_init Nat 8 0).push_block ∧
    (spmc_queue_result_push_st (spmc_queue_init Nat 8 0) 5 true).2.pop_block =
      (spmc_queue_init Nat 8 0).pop_block ∧
    (spmc_queue_result_push_st (spmc_queue_init Nat 8 0) 5 true).2.blocks =
      (spmc_queue_init Nat 8 0).blocks) :=
  ⟨by decide, spec_C7_full_frame (spmc_queue_init Nat 8 0) 5 true (by decide)⟩

/-- C9: with `max_capacity = 0` and no block yet allocated, every push
fails with FULL and leaves the ceiling and the (absent) block in place, so
pushes keep failing; and `_spmc_queue_reserve` never allocates on such a
queue.  (In the code a non-negative `max_capacity` is the ceiling itself,
so `0` caps the capacity at zero - despite the header comment saying
"zero or negative means no max capacity", the test is `>= 0`.) -/
theorem spec_C9_zero_ceiling (q : SPMC_Queue α)
    (hmax : q.push_max_capacity = 0) (hblk : q.push_block = none) (item : α)
    (alloc_ok : Bool) (to_size : Int) (ok2 : Bool) :
    (spmc_queue_result_push_st q item alloc_ok).1.state = SPMC_Queue_State.FULL ∧
    (spmc_queue_result_push_st q item alloc_ok).2.push_max_capacity = 0 ∧
    (spmc_queue_result_push_st q item alloc_ok).2.push_block = none ∧
    _spmc_queue_reserve q to_size ok2 = (q, false) := by
  have hoc : ∀ q' : SPMC_Queue α, q'.push_block = none → _spmc_queue_old_cap q' = 0 := by
    intro q' hb
    unfold _spmc_queue_old_cap
    rw [hb]
  have hmc : ∀ q' : SPMC_Queue α, q'.push_max_capacity = 0 →
      _spmc_queue_max_cap q' = 0 := by
    intro q' hm
    unfold _spmc_queue_max_cap
    rw [hm]
    simp
  have hres : ∀ (q' : SPMC_Queue α), q'.push_block = none → q'.push_max_capacity = 0 →
      ∀ ts ok', _spmc_queue_reserve q' ts ok' = (q', false) := by
    intro q' hb hm ts ok'
    have hng : ¬(_spmc_queue_old_cap q' < ts ∧ ts ≤ _spmc_queue_max_cap q') := by
      rw [hoc q' hb, hmc q' hm]
      omega
    unfold _spmc_queue_reserve
    rw [if_neg hng]
  have hg1 : _spmc_push_no_room q q.push_block q.push_head q.push_estimate_tail = true := by
    rw [hblk]
    rfl
  have hg2 : _spmc_push_no_room { q with push_estimate_tail := q.pop_tail } q.push_block
      q.push_head q.pop_tail = true := by
    rw [hblk]
    rfl
  have hR := hres { q with push_estimate_tail := q.pop_tail } hblk hmax
    (toInt64 (u64 (sub64 q.push_head q.pop_tail + 1))) alloc_ok
  have hR2 : (_spmc_queue_reserve { q with push_estimate_tail := q.pop_tail }
      (toInt64 (u64 (sub64 q.push_head q.pop_tail + 1))) alloc_ok).2 = false := by
    rw [hR]
  rw [push_st_eq_full item alloc_ok hg1 hg2 hR2, hR]
  exact ⟨rfl, hmax, hblk, hres q hblk hmax to_size ok2⟩

theorem spec_C9_zero_ceiling_witness :
    (spmc_queue_init Nat 8 0).push_max_capacity = 0 ∧
    (spmc_queue_init Nat 8 0).push_block = none ∧
    ((spmc_queue_result_push_st (spmc_queue_init Nat 8 0) 7 true).1.state =
      SPMC_Queue_State.FULL ∧
    (spmc_queue_result_push_st (spmc_queue_init Nat 8 0) 7 true).2.push_max_capacity = 0 ∧
    (spmc_queue_result_push_st (spmc_queue_init Nat 8 0) 7 true).2.push_block = none ∧
    _spmc_queue_reserve (spmc_queue_init Nat 8 0) 100 true =
      (spmc_queue_init Nat 8 0, false)) :=
  ⟨by decide, by decide, spec_C9_zero_ceiling (spmc_queue_init Nat 8 0) (by decide)
    (by decide) 7 true 100 true⟩

/-- C10: popping with a NULL `item` pointer still dequeues: on a nonempty
invariant state, `pop_st`, `pop_weak` and `pop` with `item = NULL` all
return OK, advance `tail` past the oldest item, and copy nothing out. -/
theorem spec_C10_null_pop {q : SPMC_Queue α} {items : List α} {T : Nat}
    (h : QInv q items T) (hne : T < items.length) :
    ((spmc_queue_result_pop_st q false).1.state = SPMC_Queue_State.OK ∧
      (spmc_queue_result_pop_st q false).2.1.pop_tail = u64 (T + 1) ∧
      (spmc_queue_result_pop_st q false).2.2 = none) ∧
    ((spmc_queue_result_pop_weak q false).1.state = SPMC_Queue_State.OK ∧
      (spmc_queue_result_pop_weak q false).2.1.pop_tail = u64 (T + 1) ∧
      (spmc_queue_result_pop_weak q false).2.2 = none) ∧
    ((spmc_queue_result_pop q false).1.state = SPMC_Queue_State.OK ∧
      (spmc_queue_result_pop q false).2.1.pop_tail = u64 (T + 1) ∧
      (spmc_queue_result_pop q false).2.2 = none) := by
  obtain ⟨hs1, hi1, ho1⟩ := (qinv_pop_st h false).1 hne
  obtain ⟨hs2, hi2, ho2⟩ := (qinv_pop_weak h false).1 hne
  exact ⟨⟨hs1, hi1.tail_eq, by simpa using ho1⟩, ⟨hs2, hi2.tail_eq, by simpa using ho2⟩,
    ⟨hs2, hi2.tail_eq, by simpa using ho2⟩⟩

theorem spec_C10_null_pop_witness :
    ((spmc_queue_result_pop_st
        (spmc_queue_result_push_st (spmc_queue_init Nat 8 (-1)) 7 true).2 false).1.state =
        SPMC_Queue_State.OK ∧
      (spmc_queue_result_pop_st
        (spmc_queue_result_push_st (spmc_queue_init Nat 8 (-1)) 7 true).2
        false).2.1.pop_tail = u64 (0 + 1) ∧
      (spmc_queue_result_pop_st
        (spmc_queue_result_push_st (spmc_queue_init Nat 8 (-1)) 7 true).2 false).2.2 =
        none) ∧
    ((spmc_queue_result_pop_weak
        (spmc_queue_result_push_st (spmc_queue_init Nat 8 (-1)) 7 true).2 false).1.state =
        SPMC_Queue_State.OK ∧
      (spmc_queue_result_pop_weak
        (spmc_queue_result_push_st (spmc_queue_init Nat 8 (-1)) 7 true).2
        false).2.1.pop_tail = u64 (0 + 1) ∧
      (spmc_queue_result_pop_weak
        (spmc_queue_result_push_st (spmc_queue_init Nat 8 (-1)) 7 true).2 false).2.2 =
        none) ∧
    ((spmc_queue_result_pop
        (spmc_queue_result_push_st (spmc_queue_init Nat 8 (-1)) 7 true).2 false).1.state =
        SPMC_Queue_State.OK ∧
      (spmc_queue_result_pop
        (spmc_queue_result_push_st (spmc_queue_init Nat 8 (-1)) 7 true).2
        false).2.1.pop_tail = u64 (0 + 1) ∧
      (spmc_queue_result_pop
        (spmc_queue_result_push_st (spmc_queue_init Nat 8 (-1)) 7 true).2 false).2.2 =
        none) :=
  spec_C10_null_pop
    ((qinv_push (qinv_init Nat 8 (-1)) (by decide) 7 true).1 (by decide)) (by decide)

/-- C8: `spmc_queue_reserve` is idempotent: a second reserve with the same
size is a no-op (regardless of whether the second allocation would
succeed), and a reserve whose requested size is already covered by the
current capacity changes nothing at all. -/
theorem spec_C8_reserve_idempotent (q : SPMC_Queue α) (n : Int) (hn : n ≤ 2 ^ 62)
    (ok2 : Bool) :
    spmc_queue_reserve (spmc_queue_reserve q n true) n ok2 = spmc_queue_reserve q n true ∧
    (n ≤ _spmc_queue_old_cap q → ∀ ok1, spmc_queue_reserve q n ok1 = q) := by
  have hnoop : ∀ (q' : SPMC_Queue α) (ok' : Bool), n ≤ _spmc_queue_old_cap q' →
      spmc_queue_reserve q' n ok' = q' := by
    intro q' ok' hcov
    have hng : ¬(_spmc_queue_old_cap q' < n ∧ n ≤ _spmc_queue_max_cap q') := by
      rintro ⟨h1, -⟩
      omega
    unfold spmc_queue_reserve _spmc_queue_reserve
    rw [if_neg hng]
  refine ⟨?_, fun hcov ok1 => hnoop q ok1 hcov⟩
  by_cases hg : _spmc_queue_old_cap q < n ∧ n ≤ _spmc_queue_max_cap q
  case neg =>
    have h1 : spmc_queue_reserve q n true = q := by
      unfold spmc_queue_reserve _spmc_queue_reserve
      rw [if_neg hg]
    rw [h1]
    unfold spmc_queue_reserve _spmc_queue_reserve
    rw [if_neg hg]
  case pos =>
    have h1 : spmc_queue_reserve q n true =
        { q with
            blocks := q.blocks ++ [_spmc_queue_new_block q n]
            push_block := some q.blocks.length
            pop_block := some q.blocks.length } := by
      unfold spmc_queue_reserve _spmc_queue_reserve
      rw [if_pos hg, if_pos rfl]
    rw [h1]
    apply hnoop
    have h1le : 1 ≤ n := by
      have := old_cap_nonneg q
      omega
    obtain ⟨m, hem, hm6, hm62, hms, -⟩ := new_cap_spec n h1le hn
    have hgb : getBlock { q with
        blocks := q.blocks ++ [_spmc_queue_new_block q n]
        push_block := some q.blocks.length
        pop_block := some q.blocks.length } q.blocks.length =
        _spmc_queue_new_block q n := by
      show (q.blocks ++ [_spmc_queue_new_block q n]).getD q.blocks.length default =
        _spmc_queue_new_block q n
      exact list_getD_append_length q.blocks _ default
    show n ≤ ((getBlock { q with
        blocks := q.blocks ++ [_spmc_queue_new_block q n]
        push_block := some q.blocks.length
        pop_block := some q.blocks.length } q.blocks.length).mask : Int) + 1
    rw [hgb]
    show n ≤ ((_spmc_new_cap n - 1 : Nat) : Int) + 1
    have hc : ((2 ^ m : Nat) : Int) = (2 : Int) ^ m := by push_cast; ring
    rw [hem]
    omega

theorem spec_C8_reserve_idempotent_witness :
    spmc_queue_reserve (spmc_queue_reserve (spmc_queue_init Nat 8 (-1)) 8 true) 8 true =
      spmc_queue_reserve (spmc_queue_init Nat 8 (-1)) 8 true ∧
    (8 ≤ _spmc_queue_old_cap (spmc_queue_init Nat 8 (-1)) →
      ∀ ok1, spmc_queue_reserve (spmc_queue_init Nat 8 (-1)) 8 ok1 =
        spmc_queue_init Nat 8 (-1)) :=
  spec_C8_reserve_idempotent (spmc_queue_init Nat 8 (-1)) 8 (by decide) true

/-- C3 as stated is false: `max_capacity` is not an exact item ceiling.
With `max_capacity = K = 1` the first push grows the block to the 64-slot
minimum (the reserve guard compares the ceiling against the *requested*
size `head - tail + 1 = 1 ≤ K`, and the allocator then rounds up to 64),
so the second push - which the claim says must return FULL - returns OK. -/
theorem spec_C3_boundary_counterexample :
    (spmc_queue_result_push_st (spmc_queue_init Nat 8 1) 0 true).1.state =
      SPMC_Queue_State.OK ∧
    (spmc_queue_result_push_st
        (spmc_queue_result_push_st (spmc_queue_init Nat 8 1) 0 true).2 1 true).1.state =
      SPMC_Queue_State.OK ∧
    SPMC_Queue_State.OK ≠ SPMC_Queue_State.FULL := by decide

/-- C4 as stated is false in one clause: the ninth push does *not* trigger
growth.  `reserve(8)` already rounds the capacity up to the 64-slot
minimum (not 8), so after pushing 0..7 the ninth push finds room in the
existing block: no block is allocated and the block pointer is unchanged. -/
theorem spec_C4_scenario_counterexample :
    spmc_queue_capacity (spmc_queue_reserve (spmc_queue_init Nat 8 (-1)) 8 true) = 64 ∧
    (spmc_queue_result_push_st
        (spmc_push_list (spmc_queue_reserve (spmc_queue_init Nat 8 (-1)) 8 true)
          [0, 1, 2, 3, 4, 5, 6, 7]) 8 true).2.blocks.length =
      (spmc_push_list (spmc_queue_reserve (spmc_queue_init Nat 8 (-1)) 8 true)
        [0, 1, 2, 3, 4, 5, 6, 7]).blocks.length ∧
    (spmc_queue_result_push_st
        (spmc_push_list (spmc_queue_reserve (spmc_queue_init Nat 8 (-1)) 8 true)
          [0, 1, 2, 3, 4, 5, 6, 7]) 8 true).2.push_block =
      (spmc_push_list (spmc_queue_reserve (spmc_queue_init Nat 8 (-1)) 8 true)
        [0, 1, 2, 3, 4, 5, 6, 7]).push_block := by decide

/-- C5 as stated is false: `pop_weak` copies the slot into the caller's
buffer *before* attempting the CAS.  On a two-item queue, if another
consumer advances the shared tail between our tail read and our CAS
(`tail_at_cas = 1 ≠ 0`), the call returns FAILED_RACE yet the caller's
buffer has been overwritten with the (already stolen) front item 10. -/
theorem spec_C5_copy_before_cas_counterexample :
    (spmc_queue_result_pop_weak_at
        (spmc_push_list (spmc_queue_init Nat 8 (-1)) [10, 11]) true 1).1.state =
      SPMC_Queue_State.FAILED_RACE ∧
    (spmc_queue_result_pop_weak_at
        (spmc_push_list (spmc_queue_init Nat 8 (-1)) [10, 11]) true 1).2.2 = some 10 ∧
    (some (10 : Nat) ≠ none) := by decide

theorem pop_weak_cas_buffer (q : SPMC_Queue α) (head tailv : Nat) (item_ptr : Bool)
    (tc : Nat) :
    ((_spmc_pop_weak_cas q head tailv item_ptr tc).1.state = SPMC_Queue_State.EMPTY →
      (_spmc_pop_weak_cas q head tailv item_ptr tc).2.2 = none) ∧
    ((_spmc_pop_weak_cas q head tailv item_ptr tc).1.state =
        SPMC_Queue_State.FAILED_RACE →
      item_ptr = true → (_spmc_pop_weak_cas q head tailv item_ptr tc).2.2 ≠ none) := by
  unfold _spmc_pop_weak_cas _spmc_pop_read
  rcases hqb : q.pop_block with _ | p <;> split_ifs <;> simp_all

/-- C5, amended to what the code does: on the EMPTY return paths `pop_weak`
never touches the caller's buffer, but on FAILED_RACE the buffer *has*
been written (with the item read before the failed CAS) whenever the
output pointer is non-NULL - the copy precedes the CAS. -/
theorem spec_C5_buffer_write (q : SPMC_Queue α) (item_ptr : Bool) (tail_at_cas : Nat) :
    ((spmc_queue_result_pop_weak_at q item_ptr tail_at_cas).1.state =
        SPMC_Queue_State.EMPTY →
      (spmc_queue_result_pop_weak_at q item_ptr tail_at_cas).2.2 = none) ∧
    ((spmc_queue_result_pop_weak_at q item_ptr tail_at_cas).1.state =
        SPMC_Queue_State.FAILED_RACE →
      item_ptr = true →
      (spmc_queue_result_pop_weak_at q item_ptr tail_at_cas).2.2 ≠ none) := by
  unfold spmc_queue_result_pop_weak_at
  dsimp only
  split_ifs with h1 h2
  · exact ⟨fun _ => rfl, fun hst => absurd hst (by decide)⟩
  · exact pop_weak_cas_buffer _ _ _ _ _
  · exact pop_weak_cas_buffer _ _ _ _ _

theorem spec_C5_buffer_write_witness :
    ((spmc_queue_result_pop_weak_at (spmc_queue_init Nat 8 (-1)) true 0).1.state =
      SPMC_Queue_State.EMPTY ∧
    (spmc_queue_result_pop_weak_at (spmc_queue_init Nat 8 (-1)) true 0).2.2 = none) ∧
    ((spmc_queue_result_pop_weak_at
        (spmc_push_list (spmc_queue_init Nat 8 (-1)) [10, 11]) true 1).1.state =
      SPMC_Queue_State.FAILED_RACE ∧
    (spmc_queue_result_pop_weak_at
        (spmc_push_list (spmc_queue_init Nat 8 (-1)) [10, 11]) true 1).2.2 ≠ none) :=
  ⟨⟨by decide, (spec_C5_buffer_write (spmc_queue_init Nat 8 (-1)) true 0).1 (by decide)⟩,
    ⟨by decide, (spec_C5_buffer_write
      (spmc_push_list (spmc_queue_init Nat 8 (-1)) [10, 11]) true 1).2 (by decide) rfl⟩⟩

/-- C3, amended: `max_capacity = K` is not an exact item ceiling for
arbitrary positive `K` (see the counterexample for `K = 1`): the effective
capacity is `_spmc_new_cap K`, the smallest power of two that is `≥ K` and
`≥ 64`, because the reserve guard compares `K` against the *requested*
size `head - tail + 1`, which the allocator then rounds up.  `pop_st` on a
freshly initialized queue returns EMPTY, and for every `1 ≤ K ≤ 2 ^ 61`,
after `_spmc_new_cap K` successful pushes and zero pops the next push is
the first to return FULL.  (The claimed boundary is thus exact precisely
when `K` itself is a power of two with `64 ≤ K`.) -/
theorem spec_C3_capacity_boundary (K : Nat) (hK1 : 1 ≤ K) (hK61 : K ≤ 2 ^ 61)
    (l : List α) (hl : l.length = _spmc_new_cap (K : Int)) (it : α) :
    (spmc_queue_result_pop_st (spmc_queue_init α 8 (K : Int)) true).1.state =
      SPMC_Queue_State.EMPTY ∧
    spmc_push_list_ok (spmc_queue_init α 8 (K : Int)) l = true ∧
    (spmc_queue_result_push_st
        (spmc_push_list (spmc_queue_init α 8 (K : Int)) l) it true).1.state =
      SPMC_Queue_State.FULL := by
  have hKi1 : (1 : Int) ≤ (K : Int) := by exact_mod_cast hK1
  have hKi61 : (K : Int) ≤ (2 : Int) ^ 61 := by exact_mod_cast hK61
  have hKi62 : (K : Int) ≤ 2 ^ 62 := by omega
  obtain ⟨m, hem, hm6, hm62, hms, hminm⟩ := new_cap_spec (K : Int) hKi1 hKi62
  have hm61 : m ≤ 61 := new_cap_min (K : Int) hKi1 hKi62 hem hm6 hminm (by norm_num) hKi61
  have hKm : K ≤ 2 ^ m := by exact_mod_cast hms
  have hminN : m = 6 ∨ 2 ^ (m - 1) < K := by
    rcases hminm with h6e | hlow
    · exact Or.inl h6e
    · exact Or.inr (by exact_mod_cast hlow)
  have h0 := qinv_init α 8 (K : Int)
  have hmaxe : _spmc_queue_max_cap (spmc_queue_init α 8 (K : Int)) = (K : Int) := by
    unfold _spmc_queue_max_cap
    rw [show (spmc_queue_init α 8 (K : Int)).push_max_capacity = (K : Int) from rfl,
      if_pos (by positivity)]
  have hcap0 : ∀ p0, (spmc_queue_init α 8 (K : Int)).push_block = some p0 →
      (getBlock (spmc_queue_init α 8 (K : Int)) p0).mask + 1 ≤ 2 ^ m := by
    intro p0 hp0
    exact absurd hp0 (by simp [spmc_queue_init])
  have hlN : l.length = 2 ^ m := by rw [hl, hem]
  obtain ⟨h9, hok, hpmc, hcap9⟩ := push_list_qinv_ceiling h0 hK1 hm6 hm61 hKm hminN
    hmaxe hcap0 l (by simp [hlN])
  refine ⟨((qinv_pop_st h0 true).2 rfl).1, hok, ?_⟩
  refine qinv_push_full_at_cap h9 hm6 hm61 ?_ hcap9 (by simp [hlN]) it true
  rw [max_cap_congr hpmc, hmaxe]
  exact_mod_cast hKm

theorem spec_C3_capacity_boundary_witness :
    (1 ≤ 100 ∧ 100 ≤ 2 ^ 61 ∧
      (List.replicate 128 (0 : Nat)).length = _spmc_new_cap ((100 : Nat) : Int)) ∧
    ((spmc_queue_result_pop_st (spmc_queue_init Nat 8 ((100 : Nat) : Int))
        true).1.state = SPMC_Queue_State.EMPTY ∧
    spmc_push_list_ok (spmc_queue_init Nat 8 ((100 : Nat) : Int))
      (List.replicate 128 (0 : Nat)) = true ∧
    (spmc_queue_result_push_st
        (spmc_push_list (spmc_queue_init Nat 8 ((100 : Nat) : Int))
          (List.replicate 128 (0 : Nat))) 1 true).1.state = SPMC_Queue_State.FULL) :=
  ⟨⟨by decide, by decide, by decide⟩,
    spec_C3_capacity_boundary 100 (by decide) (by decide) (List.replicate 128 (0 : Nat))
      (by decide) 1⟩

/-- C4, amended: the concrete scenario with the growth clause corrected.
`reserve(8)` rounds up to the 64-slot minimum immediately, so the ninth
push does not grow the queue: the capacity is 64 both after the reserve
and after all nine pushes succeed; `count()` then returns 9; nine `pop_st`
calls return 0,1,...,8 in order; the next `pop_st` returns EMPTY. -/
theorem spec_C4_scenario :
    spmc_queue_capacity (spmc_queue_reserve (spmc_queue_init Nat 8 (-1)) 8 true) = 64 ∧
    spmc_push_list_ok (spmc_queue_reserve (spmc_queue_init Nat 8 (-1)) 8 true)
      [0, 1, 2, 3, 4, 5, 6, 7, 8] = true ∧
    spmc_queue_capacity (spmc_push_list (spmc_queue_reserve (spmc_queue_init Nat 8 (-1))
      8 true) [0, 1, 2, 3, 4, 5, 6, 7, 8]) = 64 ∧
    spmc_queue_count (spmc_push_list (spmc_queue_reserve (spmc_queue_init Nat 8 (-1))
      8 true) [0, 1, 2, 3, 4, 5, 6, 7, 8]) = 9 ∧
    (spmc_pop_list (spmc_push_list (spmc_queue_reserve (spmc_queue_init Nat 8 (-1))
      8 true) [0, 1, 2, 3, 4, 5, 6, 7, 8]) 9).1 =
      [some 0, some 1, some 2, some 3, some 4, some 5, some 6, some 7, some 8] ∧
    (spmc_queue_result_pop_st
      (spmc_pop_list (spmc_push_list (spmc_queue_reserve (spmc_queue_init Nat 8 (-1))
        8 true) [0, 1, 2, 3, 4, 5, 6, 7, 8]) 9).2 true).1.state =
      SPMC_Queue_State.EMPTY := by
  have hq0 : QInv (spmc_queue_reserve (spmc_queue_init Nat 8 (-1)) 8 true) [] 0 :=
    (qinv_reserve (qinv_init Nat 8 (-1)) 8 true (by norm_num)).1
  have hmaxc : ((2 ^ 6 : Nat) : Int) ≤
      _spmc_queue_max_cap (spmc_queue_reserve (spmc_queue_init Nat 8 (-1)) 8 true) := by
    decide
  have hcap0 : ∀ p0,
      (spmc_queue_reserve (spmc_queue_init Nat 8 (-1)) 8 true).push_block = some p0 →
      (getBlock (spmc_queue_reserve (spmc_queue_init Nat 8 (-1)) 8 true) p0).mask + 1 ≤
        2 ^ 6 := by
    intro p0 hp0
    have hqb : (spmc_queue_reserve (spmc_queue_init Nat 8 (-1)) 8 true).push_block =
        some 0 := by decide
    rw [hqb] at hp0
    injection hp0 with h00
    subst h00
    decide
  obtain ⟨h9, hok, -, hcap9⟩ := push_list_qinv_capped hq0 (by norm_num) (by norm_num)
    hmaxc hcap0 [0, 1, 2, 3, 4, 5, 6, 7, 8] (by simp)
  have hcapa : spmc_queue_capacity (spmc_push_list
      (spmc_queue_reserve (spmc_queue_init Nat 8 (-1)) 8 true)
      [0, 1, 2, 3, 4, 5, 6, 7, 8]) = 64 := by
    have hb := h9.blk
    unfold BlockInv at hb
    rcases hqp : (spmc_push_list (spmc_queue_reserve (spmc_queue_init Nat 8 (-1)) 8 true)
        [0, 1, 2, 3, 4, 5, 6, 7, 8]).push_block with _ | p
    · rw [hqp] at hb
      simp at hb
    · rw [hqp] at hb
      obtain ⟨-, ⟨kk, hkk6, -, hmk⟩, -, -⟩ := hb
      have hle := hcap9 p hqp
      have h64 : (64 : Nat) ≤ 2 ^ kk := by
        calc (64 : Nat) = 2 ^ 6 := by norm_num
        _ ≤ 2 ^ kk := Nat.pow_le_pow_right (by norm_num) hkk6
      have hpop : (spmc_push_list (spmc_queue_reserve (spmc_queue_init Nat 8 (-1)) 8 true)
          [0, 1, 2, 3, 4, 5, 6, 7, 8]).pop_block = some p := by
        rw [h9.blk_eq, hqp]
      unfold spmc_queue_capacity
      rw [hpop]
      show ((getBlock (spmc_push_list (spmc_queue_reserve (spmc_queue_init Nat 8 (-1))
        8 true) [0, 1, 2, 3, 4, 5, 6, 7, 8]) p).mask : Int) + 1 = 64
      omega
  obtain ⟨hpop1, hpop2⟩ := pop_list_spec h9 9 (by simp)
  refine ⟨by decide, hok, hcapa, ?_, ?_, ?_⟩
  · rw [count_eq h9 (by norm_num)]
    norm_num
  · rw [hpop1]
    rfl
  · exact ((qinv_pop_st hpop2 true).2 (by norm_num)).1

/-- C6: whenever `_spmc_queue_reserve` grows (installs a new block), the
new capacity is a power of two that is at least 64, at least the requested
size, minimal among such powers of two, at least double the old capacity,
and at least the live item count. -/
theorem spec_C6_growth {q : SPMC_Queue α} {items : List α} {T : Nat} (h : QInv q items T)
    (to_size : Int) (hts : to_size ≤ 2 ^ 62) (ok : Bool)
    (hgrew : (_spmc_queue_reserve q to_size ok).2 = true) :
    ∃ k, spmc_queue_capacity (_spmc_queue_reserve q to_size ok).1 =
        ((2 ^ k : Nat) : Int) ∧
      (64 : Int) ≤ ((2 ^ k : Nat) : Int) ∧
      to_size ≤ ((2 ^ k : Nat) : Int) ∧
      (∀ j, 6 ≤ j → to_size ≤ ((2 ^ j : Nat) : Int) → (2 : Nat) ^ k ≤ 2 ^ j) ∧
      2 * spmc_queue_capacity q ≤ ((2 ^ k : Nat) : Int) ∧
      (items.length : Int) - T ≤ ((2 ^ k : Nat) : Int) := by
  obtain ⟨hQ, hgx⟩ := qinv_reserve h to_size ok hts
  obtain ⟨p, k, hpb, hk6, hk62, hmask, htsk, hmin⟩ := hgx hgrew
  have h64 : (64 : Nat) ≤ 2 ^ k := by
    calc (64 : Nat) = 2 ^ 6 := by norm_num
    _ ≤ 2 ^ k := Nat.pow_le_pow_right (by norm_num) hk6
  have hcapnew : spmc_queue_capacity (_spmc_queue_reserve q to_size ok).1 =
      ((2 ^ k : Nat) : Int) := by
    have hpop : (_spmc_queue_reserve q to_size ok).1.pop_block = some p := by
      rw [hQ.blk_eq, hpb]
    unfold spmc_queue_capacity
    rw [hpop]
    show ((getBlock (_spmc_queue_reserve q to_size ok).1 p).mask : Int) + 1 =
      ((2 ^ k : Nat) : Int)
    omega
  obtain ⟨⟨hlt, -⟩, -⟩ := (reserve_grew q to_size ok).1 hgrew
  have hdouble : 2 * spmc_queue_capacity q ≤ ((2 ^ k : Nat) : Int) := by
    have hb := h.blk
    unfold BlockInv at hb
    rcases hqp : q.push_block with _ | p0
    · have hpop0 : q.pop_block = none := by rw [h.blk_eq, hqp]
      unfold spmc_queue_capacity
      rw [hpop0]
      show 2 * (0 : Int) ≤ ((2 ^ k : Nat) : Int)
      positivity
    · rw [hqp] at hb
      obtain ⟨-, ⟨k0, hk06, -, hmk0⟩, -, -⟩ := hb
      have holdc : _spmc_queue_old_cap q = ((getBlock q p0).mask : Int) + 1 := by
        unfold _spmc_queue_old_cap
        rw [hqp]
      rw [holdc] at hlt
      have hklt : (2 : Nat) ^ k0 < 2 ^ k := by
        have : (((2 : Nat) ^ k0 : Nat) : Int) < ((2 ^ k : Nat) : Int) := by omega
        exact_mod_cast this
      have hkk : k0 < k := (Nat.pow_lt_pow_iff_right (by norm_num)).1 hklt
      have h2k : 2 * (2 : Nat) ^ k0 ≤ 2 ^ k := by
        calc 2 * (2 : Nat) ^ k0 = 2 ^ (k0 + 1) := by ring
        _ ≤ 2 ^ k := Nat.pow_le_pow_right (by norm_num) hkk
      have hpop0 : q.pop_block = some p0 := by rw [h.blk_eq, hqp]
      unfold spmc_queue_capacity
      rw [hpop0]
      show 2 * (((getBlock q p0).mask : Int) + 1) ≤ ((2 ^ k : Nat) : Int)
      omega
  have hlivebound : (items.length : Int) - T ≤ ((2 ^ k : Nat) : Int) := by
    have hlv := hQ.live_le
    have hTP := hQ.t_le
    have hb := hQ.blk
    unfold BlockInv at hb
    rw [hpb] at hb
    obtain ⟨-, -, hlv2, -⟩ := hb
    omega
  exact ⟨k, hcapnew, by exact_mod_cast h64, htsk, hmin, hdouble, hlivebound⟩

theorem spec_C6_growth_witness :
    ((_spmc_queue_reserve (spmc_queue_init Nat 8 (-1)) 8 true).2 = true) ∧
    (∃ k, spmc_queue_capacity (_spmc_queue_reserve (spmc_queue_init Nat 8 (-1))
        8 true).1 = ((2 ^ k : Nat) : Int) ∧
      (64 : Int) ≤ ((2 ^ k : Nat) : Int) ∧
      (8 : Int) ≤ ((2 ^ k : Nat) : Int) ∧
      (∀ j, 6 ≤ j → (8 : Int) ≤ ((2 ^ j : Nat) : Int) → (2 : Nat) ^ k ≤ 2 ^ j) ∧
      2 * spmc_queue_capacity (spmc_queue_init Nat 8 (-1)) ≤ ((2 ^ k : Nat) : Int) ∧
      ((([] : List Nat).length) : Int) - (0 : Nat) ≤ ((2 ^ k : Nat) : Int)) :=
  ⟨by decide, spec_C6_growth (qinv_init Nat 8 (-1)) 8 (by decide) true (by decide)⟩
